import Mathlib

/-!
Verification of the OpenAPI-to-Zod schema generator.

This file shallowly embeds the generator's core (the recursive type
converter `TypeConverter.convertType` from `src/utils/typeConverter.ts`, the
component emitter `ComponentGenerator` from `src/generators/componentGenerator.ts`,
the operation assembler `OperationGenerator` from `src/generators/operationGenerator.ts`
and the pipeline `ZodSchemaGenerator.generate` from `src/generator.ts`) and proves
properties of the embedded program.

Modelling conventions:
- A JS value that may be `undefined` is an `Option`; JS template-literal
  coercion of `undefined` to the text "undefined" is `tmpl`, and
  `Array.prototype.join`'s coercion of `undefined` to "" is `joinJS`.
- JS objects and `Map`s are association lists in insertion order; `Set`s are
  lists without duplicates in insertion order (`addToSet`).
- The converter's mutable `dependencies` map is threaded explicitly as a
  `DepMap` value; `console.log` output is returned as a list of strings.
- Truthiness tests on strings (`if (property.$ref)`, `if (property.pattern)`,
  `a || b`) are modelled by explicit emptiness tests (`effRef`, `jsOr`).
-/

inductive Schema where
  | mk
    (ref : Option String)
    (allOf : Option (List Schema))
    (oneOf : Option (List Schema))
    (anyOf : Option (List Schema))
    (type : Option String)
    (enum : Option (List String))
    (format : Option String)
    (pattern : Option String)
    (minLength : Option Nat)
    (maxLength : Option Nat)
    (minimum : Option Int)
    (maximum : Option Int)
    (minItems : Option Nat)
    (maxItems : Option Nat)
    (items : Option Schema)
    (properties : Option (List (String × Schema)))
    (required : Option (List String))
    (additionalProperties : Option (Bool ⊕ Schema))
    (description : Option String)

def Schema.ref : Schema → Option String
  | .mk r _ _ _ _ _ _ _ _ _ _ _ _ _ _ _ _ _ _ => r

def Schema.allOf : Schema → Option (List Schema)
  | .mk _ a _ _ _ _ _ _ _ _ _ _ _ _ _ _ _ _ _ => a

def Schema.oneOf : Schema → Option (List Schema)
  | .mk _ _ a _ _ _ _ _ _ _ _ _ _ _ _ _ _ _ _ => a

def Schema.anyOf : Schema → Option (List Schema)
  | .mk _ _ _ a _ _ _ _ _ _ _ _ _ _ _ _ _ _ _ => a

def Schema.type : Schema → Option String
  | .mk _ _ _ _ t _ _ _ _ _ _ _ _ _ _ _ _ _ _ => t

def Schema.enum : Schema → Option (List String)
  | .mk _ _ _ _ _ e _ _ _ _ _ _ _ _ _ _ _ _ _ => e

def Schema.format : Schema → Option String
  | .mk _ _ _ _ _ _ f _ _ _ _ _ _ _ _ _ _ _ _ => f

def Schema.pattern : Schema → Option String
  | .mk _ _ _ _ _ _ _ p _ _ _ _ _ _ _ _ _ _ _ => p

def Schema.minLength : Schema → Option Nat
  | .mk _ _ _ _ _ _ _ _ m _ _ _ _ _ _ _ _ _ _ => m

def Schema.maxLength : Schema → Option Nat
  | .mk _ _ _ _ _ _ _ _ _ m _ _ _ _ _ _ _ _ _ => m

def Schema.minimum : Schema → Option Int
  | .mk _ _ _ _ _ _ _ _ _ _ m _ _ _ _ _ _ _ _ => m

def Schema.maximum : Schema → Option Int
  | .mk _ _ _ _ _ _ _ _ _ _ _ m _ _ _ _ _ _ _ => m

def Schema.minItems : Schema → Option Nat
  | .mk _ _ _ _ _ _ _ _ _ _ _ _ m _ _ _ _ _ _ => m

def Schema.maxItems : Schema → Option Nat
  | .mk _ _ _ _ _ _ _ _ _ _ _ _ _ m _ _ _ _ _ => m

def Schema.items : Schema → Option Schema
  | .mk _ _ _ _ _ _ _ _ _ _ _ _ _ _ i _ _ _ _ => i

def Schema.properties : Schema → Option (List (String × Schema))
  | .mk _ _ _ _ _ _ _ _ _ _ _ _ _ _ _ p _ _ _ => p

def Schema.required : Schema → Option (List String)
  | .mk _ _ _ _ _ _ _ _ _ _ _ _ _ _ _ _ r _ _ => r

def Schema.additionalProperties : Schema → Option (Bool ⊕ Schema)
  | .mk _ _ _ _ _ _ _ _ _ _ _ _ _ _ _ _ _ a _ => a

def Schema.description : Schema → Option String
  | .mk _ _ _ _ _ _ _ _ _ _ _ _ _ _ _ _ _ _ d => d

abbrev DepMap : Type := List (String × List String)

def lookupAssoc {α : Type} (l : List (String × α)) (k : String) : Option α :=
  match l.find? (fun e => e.1 == k) with
  | some e => some e.2
  | none => none

def lookupD (deps : DepMap) (k : String) : List String :=
  match lookupAssoc deps k with
  | some l => l
  | none => []

def addDep (deps : DepMap) (owner rn : String) : DepMap :=
  match lookupAssoc deps owner with
  | none => deps ++ [(owner, [rn])]
  | some l =>
      if l.contains rn then deps
      else deps.map (fun e => if e.1 == owner then (e.1, e.2 ++ [rn]) else e)

def lookupSchema (table : List (String × Schema)) (name : String) : Option Schema :=
  lookupAssoc table name

def lastSeg (r : String) : String :=
  String.mk ((r.data.reverse.takeWhile (fun c => c != '/')).reverse)

def effRef (p : Schema) : Option String :=
  match p.ref with
  | some r => if r = "" then none else some r
  | none => none

def joinSep (sep : String) : List String → String
  | [] => ""
  | [x] => x
  | x :: rest => x ++ sep ++ joinSep sep rest

def joinJS (sep : String) (l : List (Option String)) : String :=
  joinSep sep (l.map (fun o => o.getD ""))

def tmpl (o : Option String) : String :=
  match o with
  | some s => s
  | none => "undefined"

def convertString (p : Schema) : String :=
  match p.enum with
  | some es => "z.enum([" ++ joinSep ", " (es.map (fun e => "\"" ++ e ++ "\"")) ++ "])"
  | none =>
    let s1 := "z.string()" ++
      (if p.format = some "date-time" then ".datetime()"
       else if p.format = some "date" then ".date()"
       else if p.format = some "email" then ".email()"
       else if p.format = some "uuid" then ".uuid()"
       else if p.format = some "uri" ∨ p.format = some "url" then ".url()"
       else "")
    let s2 := s1 ++
      (match p.pattern with
       | some pat => if pat = "" then "" else ".regex(/" ++ pat ++ "/)"
       | none => "")
    let s3 := s2 ++ (match p.minLength with | some n => ".min(" ++ toString n ++ ")" | none => "")
    s3 ++ (match p.maxLength with | some n => ".max(" ++ toString n ++ ")" | none => "")

def convertNumber (p : Schema) (ty : String) : String :=
  let z1 := (if ty = "integer" then "z.number().int()" else "z.number()") ++
    (match p.minimum with | some n => ".min(" ++ toString n ++ ")" | none => "")
  z1 ++ (match p.maximum with | some n => ".max(" ++ toString n ++ ")" | none => "")

def namesLeft (table : List (String × Schema)) (path : List String) : Nat :=
  ((table.map Prod.fst).filter (fun k => !(path.contains k))).length

theorem filter_length_mono {α : Type} (l : List α) (p q : α → Bool)
    (himp : ∀ x, q x = true → p x = true) :
    (l.filter q).length ≤ (l.filter p).length := by
  induction l with
  | nil => simp
  | cons b t ih =>
    by_cases hq : q b = true
    · simp [hq, himp b hq]; omega
    · have hq2 : q b = false := by simpa using hq
      by_cases hp : p b = true
      · simp [hq2, hp]; omega
      · have hp2 : p b = false := by simpa using hp
        simp [hq2, hp2]; omega

theorem filter_length_lt {α : Type} (l : List α) (p q : α → Bool) (a : α)
    (ha : a ∈ l) (hpa : p a = true) (hqa : q a = false)
    (himp : ∀ x, q x = true → p x = true) :
    (l.filter q).length < (l.filter p).length := by
  induction l with
  | nil => simp at ha
  | cons b t ih =>
    rcases List.mem_cons.mp ha with hb | hb
    · subst hb
      simp [hpa, hqa]
      have := filter_length_mono t p q himp
      omega
    · have hlt := ih hb
      by_cases hq : q b = true
      · simp [hq, himp b hq]; omega
      · have hq2 : q b = false := by simpa using hq
        by_cases hp : p b = true
        · simp [hq2, hp]; omega
        · have hp2 : p b = false := by simpa using hp
          simp [hq2, hp2]; omega

theorem mem_keys_of_lookup {table : List (String × Schema)} {r : String}
    (hmem : (lookupSchema table r).isSome) : r ∈ table.map Prod.fst := by
  unfold lookupSchema lookupAssoc at hmem
  cases hfind : (table.find? (fun e => e.1 == r)) with
  | none => simp [hfind] at hmem
  | some e =>
    have h1 := List.find?_some hfind
    have h2 := List.mem_of_find?_eq_some hfind
    have h3 : e.1 = r := by simpa using h1
    exact h3 ▸ List.mem_map_of_mem Prod.fst h2

theorem namesLeft_push_lt (table : List (String × Schema)) (path : List String) (r : String)
    (hmem : (lookupSchema table r).isSome) (hnot : path.contains r = false) :
    namesLeft table (path ++ [r]) < namesLeft table path := by
  apply filter_length_lt _ _ _ r (mem_keys_of_lookup hmem)
  · simpa using hnot
  · simp
  · intro x hx
    simp at hx ⊢
    exact hx.1

theorem sizeOf_field_lt (p : Schema) :
    sizeOf p.allOf < sizeOf p ∧ sizeOf p.oneOf < sizeOf p ∧ sizeOf p.anyOf < sizeOf p ∧
    sizeOf p.items < sizeOf p ∧ sizeOf p.properties < sizeOf p ∧
    sizeOf p.additionalProperties < sizeOf p := by
  cases p with
  | mk f1 f2 f3 f4 f5 f6 f7 f8 f9 f10 f11 f12 f13 f14 f15 f16 f17 f18 f19 =>
    simp [Schema.allOf, Schema.oneOf, Schema.anyOf, Schema.items, Schema.properties,
      Schema.additionalProperties]
    omega

theorem sizeOf_map_snd (l : List (String × Schema)) : sizeOf (l.map Prod.snd) ≤ sizeOf l := by
  induction l with
  | nil => simp
  | cons h t ih =>
    cases h with
    | mk a b =>
      simp
      omega

theorem sizeOf_allOf_lt {p : Schema} {l : List Schema} (h : p.allOf = some l) :
    sizeOf l < sizeOf p := by
  cases p with
  | mk f1 f2 f3 f4 f5 f6 f7 f8 f9 f10 f11 f12 f13 f14 f15 f16 f17 f18 f19 =>
    simp [Schema.allOf] at h
    subst h
    simp
    omega

theorem sizeOf_oneOf_lt {p : Schema} {l : List Schema} (h : p.oneOf = some l) :
    sizeOf l < sizeOf p := by
  cases p with
  | mk f1 f2 f3 f4 f5 f6 f7 f8 f9 f10 f11 f12 f13 f14 f15 f16 f17 f18 f19 =>
    simp [Schema.oneOf] at h
    subst h
    simp
    omega

theorem sizeOf_anyOf_lt {p : Schema} {l : List Schema} (h : p.anyOf = some l) :
    sizeOf l < sizeOf p := by
  cases p with
  | mk f1 f2 f3 f4 f5 f6 f7 f8 f9 f10 f11 f12 f13 f14 f15 f16 f17 f18 f19 =>
    simp [Schema.anyOf] at h
    subst h
    simp
    omega

theorem sizeOf_properties_lt {p : Schema} {props : List (String × Schema)}
    (h : p.properties = some props) : sizeOf props < sizeOf p := by
  cases p with
  | mk f1 f2 f3 f4 f5 f6 f7 f8 f9 f10 f11 f12 f13 f14 f15 f16 f17 f18 f19 =>
    simp [Schema.properties] at h
    subst h
    simp
    omega

theorem sizeOf_addProps_lt {p : Schema} {sch : Schema}
    (h : p.additionalProperties = some (Sum.inr sch)) : sizeOf sch < sizeOf p := by
  cases p with
  | mk f1 f2 f3 f4 f5 f6 f7 f8 f9 f10 f11 f12 f13 f14 f15 f16 f17 f18 f19 =>
    simp [Schema.additionalProperties] at h
    subst h
    simp
    omega

theorem sizeOf_list_pos (l : List Schema) : 0 < sizeOf l := by
  cases l <;> simp_arith

mutual

def convertType (table : List (String × Schema)) (deps : DepMap) (property : Option Schema)
    (currentPath : List String) (schemaName : String) (isInline : Bool) :
    Option String × DepMap :=
  match property with
  | none => (some "z.unknown()", deps)
  | some p =>
    match h1 : effRef p with
    | some r =>
      let refName := lastSeg r
      let deps1 :=
        if schemaName ≠ "" ∧ refName ≠ "" ∧ isInline = false then addDep deps schemaName refName
        else deps
      if hc : currentPath.contains refName then
        (some ("z.lazy(() => " ++ refName ++ ")"), deps1)
      else
        match h2 : lookupSchema table refName with
        | some target =>
          if isInline then
            have hdec : namesLeft table (currentPath ++ [refName]) < namesLeft table currentPath :=
              namesLeft_push_lt table currentPath refName (by rw [h2]; rfl) (by simpa using hc)
            convertType table deps1 (some target) (currentPath ++ [refName]) refName true
          else (some refName, deps1)
        | none => (some refName, deps1)
    | none =>
      match h3 : p.allOf with
      | some l =>
        have hdec : sizeOf l < sizeOf p := sizeOf_allOf_lt h3
        let rd := convertTypeList table deps l currentPath schemaName isInline
        (match rd.1 with
         | [] => none
         | [x] => x
         | xs => some ("z.intersection(" ++ joinJS ", " xs ++ ")"), rd.2)
      | none =>
        match h4 : p.oneOf with
        | some l =>
          have hdec : sizeOf l < sizeOf p := sizeOf_oneOf_lt h4
          let rd := convertTypeList table deps l currentPath schemaName isInline
          (some ("z.union([" ++ joinJS ", " rd.1 ++ "])"), rd.2)
        | none =>
          match h5 : p.anyOf with
          | some l =>
            have hdec : sizeOf l < sizeOf p := sizeOf_anyOf_lt h5
            let rd := convertTypeList table deps l currentPath schemaName isInline
            (some ("z.union([" ++ joinJS ", " rd.1 ++ "])"), rd.2)
          | none =>
            match p.type with
            | some "string" => (some (convertString p), deps)
            | some "number" => (some (convertNumber p "number"), deps)
            | some "integer" => (some (convertNumber p "integer"), deps)
            | some "boolean" => (some "z.boolean()", deps)
            | some "array" => convertArray table deps p currentPath schemaName isInline
            | some "object" => convertObject table deps p currentPath schemaName isInline
            | some "null" => (some "z.null()", deps)
            | some _ => (some "z.unknown()", deps)
            | none => (some "z.unknown()", deps)
termination_by (namesLeft table currentPath, sizeOf property, 1)

def convertTypeList (table : List (String × Schema)) (deps : DepMap) (l : List Schema)
    (currentPath : List String) (schemaName : String) (isInline : Bool) :
    List (Option String) × DepMap :=
  match l with
  | [] => ([], deps)
  | s :: rest =>
    have hpos : 0 < sizeOf rest := sizeOf_list_pos rest
    let r1 := convertType table deps (some s) currentPath schemaName isInline
    let r2 := convertTypeList table r1.2 rest currentPath schemaName isInline
    (r1.1 :: r2.1, r2.2)
termination_by (namesLeft table currentPath, sizeOf l, 1)

def convertArray (table : List (String × Schema)) (deps : DepMap) (p : Schema)
    (currentPath : List String) (schemaName : String) (isInline : Bool) :
    Option String × DepMap :=
  have hdec : sizeOf p.items < sizeOf p := (sizeOf_field_lt p).2.2.2.1
  let rd := convertType table deps p.items currentPath schemaName isInline
  let z1 := "z.array(" ++ tmpl rd.1 ++ ")" ++
    (match p.minItems with | some n => ".min(" ++ toString n ++ ")" | none => "")
  let z2 := z1 ++ (match p.maxItems with | some n => ".max(" ++ toString n ++ ")" | none => "")
  (some z2, rd.2)
termination_by (namesLeft table currentPath, 1 + sizeOf p, 0)

def convertObject (table : List (String × Schema)) (deps : DepMap) (p : Schema)
    (currentPath : List String) (schemaName : String) (isInline : Bool) :
    Option String × DepMap :=
  match hp : p.properties with
  | none => (some "z.record(z.unknown())", deps)
  | some props =>
    have hdec : sizeOf (props.map Prod.snd) < sizeOf p :=
      Nat.lt_of_le_of_lt (sizeOf_map_snd props) (sizeOf_properties_lt hp)
    let rd := convertTypeList table deps (props.map Prod.snd) currentPath schemaName isInline
    let req := p.required.getD []
    let lines := (props.zip rd.1).map (fun pr =>
      "  " ++ pr.1.1 ++ ": " ++ tmpl pr.2 ++ (if req.contains pr.1.1 then "" else ".optional()"))
    let z0 := "z.object(\x7b\n" ++ joinSep ",\n" lines ++ "\n\x7d)"
    match hap : p.additionalProperties with
    | some (Sum.inl b) =>
        if b then (some (z0 ++ ".catchall(z.unknown())"), rd.2)
        else (some (z0 ++ ".strict()"), rd.2)
    | some (Sum.inr sch) =>
        have hdec2 : sizeOf sch < sizeOf p := sizeOf_addProps_lt hap
        let rd2 := convertType table rd.2 (some sch) currentPath schemaName isInline
        (some (z0 ++ ".catchall(" ++ tmpl rd2.1 ++ ")"), rd2.2)
    | none => (some z0, rd.2)
termination_by (namesLeft table currentPath, 1 + sizeOf p, 0)

end

-- quick tests
def sRef (r : String) : Schema :=
  .mk (some r) none none none none none none none none none none none none none none none none none none


theorem sizeOf_items_some_lt {p : Schema} {i : Schema} (h : p.items = some i) :
    sizeOf i < sizeOf p := by
  cases p with
  | mk f1 f2 f3 f4 f5 f6 f7 f8 f9 f10 f11 f12 f13 f14 f15 f16 f17 f18 f19 =>
    simp [Schema.items] at h
    subst h
    simp
    omega

/-- JS `a || b` for an optional string: the fallback is used when the
string is absent or empty (falsy). -/
def jsOr (o : Option String) (fb : String) : String :=
  match o with
  | some s => if s = "" then fb else s
  | none => fb

def isLowerCh (c : Char) : Bool := 'a' ≤ c && c ≤ 'z'

def isUpperCh (c : Char) : Bool := 'A' ≤ c && c ≤ 'Z'

/-- Splits off the longest leading run of characters satisfying `p`. -/
def grabWhile (p : Char → Bool) : List Char → List Char × List Char
  | [] => ([], [])
  | c :: cs =>
    if p c then
      let r := grabWhile p cs
      (c :: r.1, r.2)
    else ([], c :: cs)

/-- Models the JS global regex match `name.match(/[A-Z][a-z]+|[A-Z]+(?=[A-Z])|[a-z]+/g)`
used by `generateDescription`: scan left to right, at each position try the three
alternatives in order (with backtracking for the lookahead alternative), advancing
one character when none matches.  The fuel argument is the remaining scan length;
each step consumes at least one character, so `cs.length` fuel always suffices. -/
def genTokensGo : Nat → List Char → List String
  | 0, _ => []
  | _, [] => []
  | fuel + 1, c :: cs =>
    if isLowerCh c then
      let r := grabWhile isLowerCh cs
      String.mk (c :: r.1) :: genTokensGo fuel r.2
    else if isUpperCh c then
      match cs with
      | d :: _ =>
        if isLowerCh d then
          let r := grabWhile isLowerCh cs
          String.mk (c :: r.1) :: genTokensGo fuel r.2
        else
          let r := grabWhile isUpperCh cs
          if r.1.isEmpty then genTokensGo fuel cs
          else
            let run := c :: r.1
            String.mk run.dropLast :: genTokensGo fuel (run.getLastD c :: r.2)
      | [] => []
    else genTokensGo fuel cs

def strLower (s : String) : String := String.mk (s.data.map Char.toLower)

def strUpper (s : String) : String := String.mk (s.data.map Char.toUpper)

/-- `generateDescription` from `src/utils/helpers.ts`: split a camel-cased name
into words, join with spaces, lower-case, then capitalize the first character. -/
def generateDescription (name : String) : String :=
  let words := genTokensGo name.data.length name.data
  let dsc := strLower (joinSep " " words)
  match dsc.data with
  | [] => ""
  | c :: rest => String.mk (Char.toUpper c :: rest)

/-- `getPropertyType` from `src/utils/helpers.ts`. -/
def getPropertyType (p : Schema) : String :=
  match effRef p with
  | some r => lastSeg r
  | none =>
    if p.type = some "string" then "string"
    else if p.type = some "number" then "number"
    else if p.type = some "integer" then "number"
    else if p.type = some "boolean" then "boolean"
    else if p.type = some "array" then
      (match hi : p.items with
       | some i =>
         have hdec : sizeOf i < sizeOf p := sizeOf_items_some_lt hi
         getPropertyType i
       | none => "any") ++ "[]"
    else if p.type = some "object" then "object"
    else "any"
termination_by sizeOf p

/-- One generated artifact: `GeneratedFile` from `src/types.ts`. -/
structure GeneratedFile where
  dirName : Option String
  fileName : String
  content : String

/-- The mutable state of a `ComponentGenerator` instance: the component table,
the `TypeConverter`'s dependency map, the memoization map `generatedSchemas`
and the `processingStack` set. -/
structure CGState where
  table : List (String × Schema)
  deps : DepMap
  generated : List (String × GeneratedFile)
  processing : List String

/-- `ComponentGenerator.generateSchemaFile`.  Returns the updated state, the
produced file (or none) and the console-log lines emitted. -/
def generateSchemaFile (s : CGState) (name : String) :
    CGState × Option GeneratedFile × List String :=
  match lookupAssoc s.generated name with
  | some f => (s, some f, [])
  | none =>
    if s.processing.contains name then
      (s, none, ["Detected circular reference for schema: " ++ name])
    else
      match lookupSchema s.table name with
      | none => (s, none, [])
      | some schema =>
        let rd := convertType s.table s.deps (some schema) [name] name false
        let depList := lookupD rd.2 name
        let imports := "import \x7b z \x7d from \x27zod\x27;" ::
          depList.filterMap (fun d =>
            if (lookupSchema s.table d).isSome then
              some ("import \x7b " ++ d ++ " \x7d from \x27./" ++ d ++ ".js\x27;")
            else none)
        let descr := jsOr schema.description (generateDescription name)
        let props := schema.properties.getD []
        let req := schema.required.getD []
        let jsDoc := ["/**", " * " ++ descr] ++
          (if props.length > 0 then
            " *" :: props.map (fun kv =>
              " * @property \x7b" ++ getPropertyType kv.2 ++ "\x7d " ++ kv.1 ++
                (if req.contains kv.1 then "" else "?") ++ " - " ++ jsOr kv.2.description kv.1)
          else []) ++ [" */"]
        let content := joinSep "\n" (imports ++ [""] ++ jsDoc ++
          ["export const " ++ name ++ " = " ++ tmpl rd.1 ++ ";",
           "export type " ++ name ++ "Type = z.infer<typeof " ++ name ++ ">;", ""])
        let result : GeneratedFile := ⟨none, name ++ ".ts", content⟩
        (⟨s.table, rd.2, s.generated ++ [(name, result)],
            (s.processing ++ [name]).filter (fun x => x ≠ name)⟩,
          some result, [])

/-- The loop body of `ComponentGenerator.generateComponentSchemas` over the
remaining component names. -/
def genComponentsAux (s : CGState) (names : List String) :
    CGState × List GeneratedFile × List String :=
  match names with
  | [] => (s, [], [])
  | n :: rest =>
    let r1 := generateSchemaFile s n
    let rr := genComponentsAux r1.1 rest
    let here := match r1.2.1 with
      | some f => [{ dirName := some "_components", fileName := f.fileName,
                     content := f.content : GeneratedFile }]
      | none => []
    (rr.1, here ++ rr.2.1, r1.2.2 ++ rr.2.2)

/-- `ComponentGenerator.generateComponentSchemas` on a fresh generator. -/
def generateComponentSchemas (table : List (String × Schema)) :
    CGState × List GeneratedFile × List String :=
  genComponentsAux ⟨table, [], [], []⟩ (table.map Prod.fst)

/-- One response entry of an operation as stored by the assembler:
`(statusCode, description, schema)`. -/
abbrev RespEntry : Type := String × String × Schema

/-- A parsed response object: `description` and the schema reached by
`content?.['application/json']?.schema` (flattened optional chain). -/
structure ResponseObj where
  description : Option String
  jsonSchema : Option Schema

/-- A parsed operation object.  `requestJsonSchema` models the optional chain
`requestBody?.content?.['application/json']?.schema`. -/
structure Operation where
  operationId : Option String
  summary : Option String
  requestJsonSchema : Option Schema
  responses : Option (List (String × ResponseObj))

/-- The per-operationId record built by `generateOperationSchemas`
(`OperationSchema` from `src/types.ts`). -/
structure OperationSchema where
  operationId : String
  summary : String
  method : String
  path : String
  request : Option Schema
  responses : List RespEntry

/-- JS object property assignment `responses[code] = v`: update in place if the
key exists, else append. -/
def setResp (l : List RespEntry) (code d : String) (sch : Schema) : List RespEntry :=
  if l.any (fun e => e.1 == code) then
    l.map (fun e => if e.1 == code then (code, d, sch) else e)
  else l ++ [(code, d, sch)]

/-- JS `Map.set`: update in place if the key exists, else append. -/
def setOS (m : List (String × OperationSchema)) (k : String) (v : OperationSchema) :
    List (String × OperationSchema) :=
  if m.any (fun e => e.1 == k) then m.map (fun e => if e.1 == k then (k, v) else e)
  else m ++ [(k, v)]

/-- Folds one operation's declared responses into the accumulated response map
(the inner `Object.entries(responses).forEach` of the assembler). -/
def applyResponses (acc : List RespEntry) (rs : List (String × ResponseObj)) :
    List RespEntry :=
  match rs with
  | [] => acc
  | (code, resp) :: rest =>
    match resp.jsonSchema with
    | some sch => applyResponses (setResp acc code (jsOr resp.description ("Response " ++ code)) sch) rest
    | none => applyResponses acc rest

/-- Applies one path-table operation entry to the accumulated record with its
operationId: the request body (if declared) is assigned, and each declared
response with a JSON schema is assigned at its status code. -/
def applyOperation (r : OperationSchema) (op : Operation) : OperationSchema :=
  let r1 := match op.requestJsonSchema with
    | some s => { r with request := some s }
    | none => r
  match op.responses with
  | some rs => { r1 with responses := applyResponses r1.responses rs }
  | none => r1

/-- Processing of one `(method, operation)` entry of a path item by
`generateOperationSchemas`'s first pass. -/
def opStep (m : List (String × OperationSchema)) (pathName method : String)
    (opq : Option Operation) : List (String × OperationSchema) :=
  match opq with
  | none => m
  | some op =>
    match op.operationId with
    | none => m
    | some id =>
      if id = "" then m
      else
        let m1 := if (lookupAssoc m id).isSome then m
          else m ++ [(id, ⟨id, jsOr op.summary (generateDescription id), strUpper method,
                      pathName, none, []⟩)]
        match lookupAssoc m1 id with
        | some r => setOS m1 id (applyOperation r op)
        | none => m1

/-- First pass of `OperationGenerator.generateOperationSchemas`: fold the whole
path table into one `OperationSchema` record per distinct operationId. -/
def buildOperationSchemas (paths : List (String × List (String × Option Operation))) :
    List (String × OperationSchema) :=
  paths.foldl (fun m pe => pe.2.foldl (fun m2 me => opStep m2 pe.1 me.1 me.2) m) []

/-- JS `Set.add`: append when not already present. -/
def addToSet (l : List String) (x : String) : List String :=
  if l.contains x then l else l ++ [x]

/-- `isComponentSchema` from `src/utils/helpers.ts`. -/
def isComponentSchema (sq : Option Schema) : Bool :=
  match sq with
  | none => false
  | some s =>
    match s.ref with
    | some r => r.startsWith "#/components/schemas/"
    | none => false

mutual

/-- `findComponentReferences` from `src/utils/helpers.ts`, with the mutated
`references` set threaded through. -/
def findComponentReferences (schema : Option Schema) (refs : List String) : List String :=
  match schema with
  | none => refs
  | some s =>
    if isComponentSchema (some s) then
      addToSet refs (lastSeg ((s.ref).getD ""))
    else
      let r1 := match h1 : s.allOf with
        | some l =>
          have hdec : sizeOf l < sizeOf s := sizeOf_allOf_lt h1
          findComponentReferencesList l refs
        | none => refs
      let r2 := match h2 : s.oneOf with
        | some l =>
          have hdec : sizeOf l < sizeOf s := sizeOf_oneOf_lt h2
          findComponentReferencesList l r1
        | none => r1
      let r3 := match h3 : s.anyOf with
        | some l =>
          have hdec : sizeOf l < sizeOf s := sizeOf_anyOf_lt h3
          findComponentReferencesList l r2
        | none => r2
      let r4 := match h4 : s.properties with
        | some props =>
          have hdec : sizeOf (props.map Prod.snd) < sizeOf s :=
            Nat.lt_of_le_of_lt (sizeOf_map_snd props) (sizeOf_properties_lt h4)
          findComponentReferencesList (props.map Prod.snd) r3
        | none => r3
      match h5 : s.items with
      | some i =>
        have hdec : sizeOf i < sizeOf s := sizeOf_items_some_lt h5
        findComponentReferences (some i) r4
      | none => r4
termination_by (sizeOf schema, 1)

def findComponentReferencesList (l : List Schema) (refs : List String) : List String :=
  match l with
  | [] => refs
  | s :: rest =>
    have hpos : 0 < sizeOf rest := sizeOf_list_pos rest
    findComponentReferencesList rest (findComponentReferences (some s) refs)
termination_by (sizeOf l, 0)

end

mutual

/-- Structural containment of a reference whose last segment is `t` anywhere in
a schema tree (used to state that one named shape references another). -/
def mentionsRef (s : Schema) (t : String) : Bool :=
  (match s.ref with
   | some r => lastSeg r == t
   | none => false) ||
  (match h1 : s.allOf with
   | some l =>
     have hdec : sizeOf l < sizeOf s := sizeOf_allOf_lt h1
     mentionsRefList l t
   | none => false) ||
  (match h2 : s.oneOf with
   | some l =>
     have hdec : sizeOf l < sizeOf s := sizeOf_oneOf_lt h2
     mentionsRefList l t
   | none => false) ||
  (match h3 : s.anyOf with
   | some l =>
     have hdec : sizeOf l < sizeOf s := sizeOf_anyOf_lt h3
     mentionsRefList l t
   | none => false) ||
  (match h4 : s.items with
   | some i =>
     have hdec : sizeOf i < sizeOf s := sizeOf_items_some_lt h4
     mentionsRef i t
   | none => false) ||
  (match h5 : s.properties with
   | some props =>
     have hdec : sizeOf (props.map Prod.snd) < sizeOf s :=
       Nat.lt_of_le_of_lt (sizeOf_map_snd props) (sizeOf_properties_lt h5)
     mentionsRefList (props.map Prod.snd) t
   | none => false) ||
  (match h6 : s.additionalProperties with
   | some (Sum.inr x) =>
     have hdec : sizeOf x < sizeOf s := sizeOf_addProps_lt h6
     mentionsRef x t
   | some (Sum.inl _) => false
   | none => false)
termination_by (sizeOf s, 1)

def mentionsRefList (l : List Schema) (t : String) : Bool :=
  match l with
  | [] => false
  | s :: rest =>
    have hpos : 0 < sizeOf rest := sizeOf_list_pos rest
    mentionsRef s t || mentionsRefList rest t
termination_by (sizeOf l, 0)

end

mutual

/-- Every `allOf` composition list occurring anywhere in the schema tree is
nonempty. -/
def allOfOk (s : Schema) : Bool :=
  (match h1 : s.allOf with
   | some l =>
     have hdec : sizeOf l < sizeOf s := sizeOf_allOf_lt h1
     !l.isEmpty && allOfOkList l
   | none => true) &&
  (match h2 : s.oneOf with
   | some l =>
     have hdec : sizeOf l < sizeOf s := sizeOf_oneOf_lt h2
     allOfOkList l
   | none => true) &&
  (match h3 : s.anyOf with
   | some l =>
     have hdec : sizeOf l < sizeOf s := sizeOf_anyOf_lt h3
     allOfOkList l
   | none => true) &&
  (match h4 : s.items with
   | some i =>
     have hdec : sizeOf i < sizeOf s := sizeOf_items_some_lt h4
     allOfOk i
   | none => true) &&
  (match h5 : s.properties with
   | some props =>
     have hdec : sizeOf (props.map Prod.snd) < sizeOf s :=
       Nat.lt_of_le_of_lt (sizeOf_map_snd props) (sizeOf_properties_lt h5)
     allOfOkList (props.map Prod.snd)
   | none => true) &&
  (match h6 : s.additionalProperties with
   | some (Sum.inr x) =>
     have hdec : sizeOf x < sizeOf s := sizeOf_addProps_lt h6
     allOfOk x
   | some (Sum.inl _) => true
   | none => true)
termination_by (sizeOf s, 1)

def allOfOkList (l : List Schema) : Bool :=
  match l with
  | [] => true
  | s :: rest =>
    have hpos : 0 < sizeOf rest := sizeOf_list_pos rest
    allOfOk s && allOfOkList rest
termination_by (sizeOf l, 0)

end

/-- `t` matches the front of `s` (character lists). -/
def frontMatches : List Char → List Char → Bool
  | _, [] => true
  | [], _ :: _ => false
  | a :: as, b :: bs => a == b && frontMatches as bs

/-- `t` occurs somewhere inside `s` (character lists). -/
def subIn : List Char → List Char → Bool
  | [], t => t.isEmpty
  | a :: srest, t => frontMatches (a :: srest) t || subIn srest t

/-- `hasSub s t`: the string `t` occurs as a contiguous substring of `s`. -/
def hasSub (s t : String) : Bool := subIn s.data t.data

/-- Threads the converter and the mutated `componentRefs` set through the
response-object property loop of `convertResponseSchema`. -/
def convertRespProps (table : List (String × Schema)) (deps : DepMap) (req : List String)
    (props : List (String × Schema)) (refs : List String) :
    List String × List String × DepMap :=
  match props with
  | [] => ([], refs, deps)
  | (k, v) :: rest =>
    let step : String × List String × DepMap :=
      if isComponentSchema (some v) then
        (lastSeg ((v.ref).getD ""), addToSet refs (lastSeg ((v.ref).getD "")), deps)
      else
        let rd := convertType table deps (some v) [] "" true
        (tmpl rd.1, refs, rd.2)
    let line := "  " ++ k ++ ": " ++ step.1 ++ (if req.contains k then "" else ".optional()")
    let rr := convertRespProps table step.2.2 req rest step.2.1
    (line :: rr.1, rr.2.1, rr.2.2)

/-- `OperationGenerator.convertResponseSchema`. -/
def convertResponseSchema (table : List (String × Schema)) (deps : DepMap) (sch : Schema)
    (refs : List String) : Option String × List String × DepMap :=
  if isComponentSchema (some sch) then
    (some (lastSeg ((sch.ref).getD "")), refs, deps)
  else if sch.type = some "object" then
    match sch.properties with
    | some props =>
      let r := convertRespProps table deps (sch.required.getD []) props refs
      (some ("z.object(\x7b\n" ++ joinSep ",\n" r.1 ++ "\n\x7d)"), r.2.1, r.2.2)
    | none =>
      let rd := convertType table deps (some sch) [] "" true
      (rd.1, refs, rd.2)
  else
    let rd := convertType table deps (some sch) [] "" true
    (rd.1, refs, rd.2)

/-- Collects component references of all response schemas of one operation
(the `Object.values(opSchema.responses).forEach` loop). -/
def respFcr (resps : List RespEntry) (refs : List String) : List String :=
  match resps with
  | [] => refs
  | (_, _, sch) :: rest => respFcr rest (findComponentReferences (some sch) refs)

/-- Emits the per-status-code response sections of one operation artifact. -/
def emitResponses (table : List (String × Schema)) (deps : DepMap)
    (resps : List RespEntry) (refs : List String) :
    List String × List String × DepMap :=
  match resps with
  | [] => ([], refs, deps)
  | (code, d, sch) :: rest =>
    let r := convertResponseSchema table deps sch refs
    let lines := ["/**", " * Response " ++ code ++ ": " ++ d, " */",
      "export const Response" ++ code ++ " = " ++ tmpl r.1 ++ ";",
      "export type Response" ++ code ++ "Type = z.infer<typeof Response" ++ code ++ ">;", ""]
    let rr := emitResponses table r.2.2 rest r.2.1
    (lines ++ rr.1, rr.2.1, rr.2.2)

/-- Emits one operation artifact (the body of the `operationSchemas.forEach`
loop of `OperationGenerator.generateOperationSchemas`). -/
def emitOperationFile (table : List (String × Schema)) (deps : DepMap) (dirName : String)
    (os : OperationSchema) : GeneratedFile × DepMap :=
  let refs0 : List String :=
    match os.request with
    | some rq => if isComponentSchema (some rq) then addToSet [] (lastSeg ((rq.ref).getD "")) else []
    | none => []
  let refs1 := respFcr os.responses refs0
  let imports := refs1.foldl (fun acc r =>
      if (lookupSchema table r).isSome then
        addToSet acc ("import \x7b " ++ r ++ " \x7d from \x27../_components/" ++ r ++ ".js\x27;")
      else acc)
    ["import \x7b z \x7d from \x27zod\x27;"]
  let header := ["", "/**", " * " ++ os.summary, " * ", " * @operationId " ++ os.operationId,
    " * @method " ++ os.method, " * @path " ++ os.path, " */", ""]
  let reqSec : List String × DepMap :=
    match os.request with
    | some rq =>
      if isComponentSchema (some rq) then
        (["/**", " * Request schema", " */",
          "export const Request = " ++ lastSeg ((rq.ref).getD "") ++ ";",
          "export type RequestType = z.infer<typeof Request>;", ""], deps)
      else
        let rd := convertType table deps (some rq) [] "Request" true
        (["/**", " * Request schema", " */",
          "export const Request = " ++ tmpl rd.1 ++ ";",
          "export type RequestType = z.infer<typeof Request>;", ""], rd.2)
    | none => ([], deps)
  let rr := emitResponses table reqSec.2 os.responses refs1
  let content := joinSep "\n" (imports ++ header ++ reqSec.1 ++ rr.1)
  (⟨some dirName, "schema.ts", content⟩, rr.2.2)

/-- Emits all operation artifacts, threading the shared converter state. -/
def emitOperationFiles (table : List (String × Schema)) (deps : DepMap)
    (ops : List (String × OperationSchema)) : List GeneratedFile × DepMap :=
  match ops with
  | [] => ([], deps)
  | (dirName, os) :: rest =>
    let r := emitOperationFile table deps dirName os
    let rr := emitOperationFiles table r.2 rest
    (r.1 :: rr.1, rr.2)

/-- The `components` object of a parsed document. -/
structure ComponentsObj where
  schemas : Option (List (String × Schema))

/-- A parsed document, restricted to the fields the core reads
(`components?.schemas` and `paths`). -/
structure OpenAPIDocument where
  components : Option ComponentsObj
  paths : Option (List (String × List (String × Option Operation)))

def docSchemas (doc : OpenAPIDocument) : List (String × Schema) :=
  match doc.components with
  | some c => c.schemas.getD []
  | none => []

def docPaths (doc : OpenAPIDocument) : List (String × List (String × Option Operation)) :=
  (doc.paths).getD []

/-- `OperationGenerator.generateOperationSchemas` on a fresh generator. -/
def generateOperationSchemas (doc : OpenAPIDocument) : List GeneratedFile :=
  (emitOperationFiles (docSchemas doc) [] (buildOperationSchemas (docPaths doc))).1

/-- `ZodSchemaGenerator.generate` from `src/generator.ts`: fresh component and
operation generators, component artifacts first, then operation artifacts. -/
def generate (doc : OpenAPIDocument) : List GeneratedFile :=
  (generateComponentSchemas (docSchemas doc)).2.1 ++ generateOperationSchemas doc

theorem lookupAssoc_append {α : Type} (l1 l2 : List (String × α)) (k : String) :
    lookupAssoc (l1 ++ l2) k =
      (match lookupAssoc l1 k with
       | some v => some v
       | none => lookupAssoc l2 k) := by
  induction l1 with
  | nil => simp [lookupAssoc]
  | cons e t ih =>
    by_cases he : (e.1 == k) = true
    · simp [lookupAssoc, List.find?_cons, he]
    · have he2 : (e.1 == k) = false := by simpa using he
      simpa [lookupAssoc, List.find?_cons, he2] using ih

theorem lookupAssoc_cons {α : Type} (x : String × α) (xs : List (String × α)) (k : String) :
    lookupAssoc (x :: xs) k = if (x.1 == k) = true then some x.2 else lookupAssoc xs k := by
  by_cases h : (x.1 == k) = true <;> simp [lookupAssoc, List.find?_cons, h]

theorem lookupAssoc_map_grow (d : DepMap) (o2 rn : String) (k : String) :
    lookupAssoc (d.map (fun e => if e.1 == o2 then (e.1, e.2 ++ [rn]) else e)) k =
      (match lookupAssoc d k with
       | some l => if k == o2 then some (l ++ [rn]) else some l
       | none => none) := by
  induction d with
  | nil => simp [lookupAssoc]
  | cons e t ih =>
    simp only [List.map_cons]
    by_cases ho : (e.1 == o2) = true
    · have ho' : e.1 = o2 := by simpa using ho
      have hfe : (if e.1 == o2 then (e.1, e.2 ++ [rn]) else e) = (e.1, e.2 ++ [rn]) := by
        simp [ho]
      rw [hfe, lookupAssoc_cons, lookupAssoc_cons]
      by_cases hk : (e.1 == k) = true
      · have hk' : e.1 = k := by simpa using hk
        have hko : (k == o2) = true := by
          rw [← hk']
          exact ho
        simp [hk, hko]
      · have hk2 : (e.1 == k) = false := by simpa using hk
        simpa [hk2] using ih
    · have ho2 : (e.1 == o2) = false := by simpa using ho
      have hfe : (if e.1 == o2 then (e.1, e.2 ++ [rn]) else e) = e := by
        simp [ho2]
      rw [hfe, lookupAssoc_cons, lookupAssoc_cons]
      by_cases hk : (e.1 == k) = true
      · have hk' : e.1 = k := by simpa using hk
        have hko : (k == o2) = false := by
          rw [← hk']
          exact ho2
        simp [hk, hko]
      · have hk2 : (e.1 == k) = false := by simpa using hk
        simpa [hk2] using ih

theorem addDep_mono {d : DepMap} {o r' : String} (o2 rn : String)
    (h : r' ∈ lookupD d o) : r' ∈ lookupD (addDep d o2 rn) o := by
  cases h2 : lookupAssoc d o2 with
  | none =>
    simp only [addDep, h2]
    unfold lookupD at h ⊢
    rw [lookupAssoc_append]
    cases h3 : lookupAssoc d o with
    | none =>
      rw [h3] at h
      simp at h
    | some l =>
      rw [h3] at h
      exact h
  | some l =>
    simp only [addDep, h2]
    by_cases hc : l.contains rn = true
    · rw [if_pos hc]
      exact h
    · rw [if_neg hc]
      unfold lookupD at h ⊢
      rw [lookupAssoc_map_grow]
      cases h3 : lookupAssoc d o with
      | none =>
        rw [h3] at h
        simp at h
      | some lo =>
        rw [h3] at h
        have h' : r' ∈ lo := h
        by_cases hoo : (o == o2) = true
        · simp [hoo]
          exact Or.inl h'
        · have hoo2 : (o == o2) = false := by simpa using hoo
          simp [hoo2]
          exact h'

theorem addDep_self (d : DepMap) (o rn : String) : rn ∈ lookupD (addDep d o rn) o := by
  cases h2 : lookupAssoc d o with
  | none =>
    simp only [addDep, h2]
    unfold lookupD
    rw [lookupAssoc_append, h2]
    simp [lookupAssoc, List.find?_cons]
  | some l =>
    simp only [addDep, h2]
    by_cases hc : l.contains rn = true
    · rw [if_pos hc]
      have hm : rn ∈ l := by simpa using hc
      unfold lookupD
      rw [h2]
      exact hm
    · rw [if_neg hc]
      unfold lookupD
      rw [lookupAssoc_map_grow, h2]
      simp

theorem strData_append (a b : String) : (a ++ b).data = a.data ++ b.data := by
  cases a
  cases b
  rfl

theorem frontMatches_self_append (t y : List Char) : frontMatches (t ++ y) t = true := by
  induction t with
  | nil => cases y <;> simp [frontMatches]
  | cons c cs ih => simp [frontMatches, ih]

theorem subIn_middle (x t y : List Char) : subIn (x ++ (t ++ y)) t = true := by
  induction x with
  | nil =>
    rw [List.nil_append]
    cases t with
    | nil => cases y <;> simp [subIn, frontMatches]
    | cons tc tcs =>
      simp [List.cons_append, subIn, frontMatches, frontMatches_self_append]
  | cons c cs ih =>
    simp only [List.cons_append, subIn, Bool.or_eq_true]
    exact Or.inr ih

theorem hasSub_middle (x t y : String) : hasSub (x ++ t ++ y) t = true := by
  unfold hasSub
  rw [strData_append, strData_append, List.append_assoc]
  exact subIn_middle x.data t.data y.data

theorem joinSep_mem_split (sep x : String) (l : List String) (hx : x ∈ l) :
    ∃ a b : String, joinSep sep l = a ++ x ++ b := by
  induction l with
  | nil => simp at hx
  | cons c cs ih =>
    rcases List.mem_cons.mp hx with h | h
    · subst h
      cases cs with
      | nil => exact ⟨"", "", by simp [joinSep]⟩
      | cons d ds =>
        refine ⟨"", sep ++ joinSep sep (d :: ds), ?_⟩
        simp [joinSep, String.append_assoc]
    · have hne : cs ≠ [] := by
        intro hcon
        rw [hcon] at h
        simp at h
      obtain ⟨a, b, hab⟩ := ih h
      cases cs with
      | nil => simp at h
      | cons d ds =>
        refine ⟨c ++ sep ++ a, b, ?_⟩
        simp only [joinSep]
        rw [hab]
        simp [String.append_assoc]

theorem hasSub_of_mem_joinSep (sep x : String) (l : List String) (hx : x ∈ l) :
    hasSub (joinSep sep l) x = true := by
  obtain ⟨a, b, hab⟩ := joinSep_mem_split sep x l hx
  rw [hab]
  exact hasSub_middle a x b

/-- Claim C1: for every schema node that is a reference whose target name (the
last `/`-segment of the `$ref` string) already appears in the `pathStack`
passed to `convertType`, the conversion returns the deferred validator
expression `z.lazy(() => target)` instead of expanding the target.  The
converter is a total function (its well-founded recursion is part of this
development), so in particular it terminates on such cyclic inputs. -/
theorem convertType_cycle_lazy (table : List (String × Schema)) (deps : DepMap) (p : Schema)
    (r : String) (path : List String) (owner : String) (inline : Bool)
    (href : p.ref = some r) (hne : r ≠ "") (hmem : lastSeg r ∈ path) :
    (convertType table deps (some p) path owner inline).1 =
      some ("z.lazy(() => " ++ lastSeg r ++ ")") := by
  have heff : effRef p = some r := by simp [effRef, href, hne]
  have hc : path.contains (lastSeg r) = true := by simpa using hmem
  rw [convertType.eq_def]
  split
  next heq =>
    simp at heq
  next p2 heq =>
    injection heq with heq'
    subst heq'
    split
    next r' heq2 =>
      rw [heff] at heq2
      injection heq2 with heq2'
      subst heq2'
      simp [hc, hmem]
    next heq2 =>
      rw [heff] at heq2
      simp at heq2

/-- Witness for C1 at a concrete self-referential input. -/
theorem convertType_cycle_lazy_witness :
    (convertType [] [] (some (Schema.mk (some "#/components/schemas/User") none none none none
        none none none none none none none none none none none none none none))
      ["User"] "User" false).1 =
      some ("z.lazy(() => " ++ lastSeg "#/components/schemas/User" ++ ")") :=
  convertType_cycle_lazy [] [] _ "#/components/schemas/User" ["User"] "User" false rfl
    (by decide) (by decide)

/-- Claim C3, counterexample: on the schema node `{allOf: []}` the converter
does not return a validator-expression string: the JS expression
`schemas.length > 1 ? ... : schemas[0]` evaluates to `undefined` (modelled as
`none`) because `schemas` is empty, so the claim that `convertType` always
returns a validator-expression string fails at this input. -/
theorem convertType_emptyAllOf_undefined :
    convertType [] [] (some (Schema.mk none (some []) none none none none none none none none
        none none none none none none none none none)) [] "" false = (none, []) := by
  simp [convertType, convertTypeList, effRef, Schema.ref, Schema.allOf]

/-- Claim C6: for every string-typed schema node carrying an enumerated
literal set, the emitted expression is exactly the enum-of-literals validator
`z.enum([...])`; it is independent of the node's format, pattern and length
constraint fields (so no format, pattern or length-constraint call is ever
appended alongside an enum). -/
theorem convertString_enum_overrides (table : List (String × Schema)) (deps : DepMap)
    (path : List String) (owner : String) (inline : Bool) (es : List String)
    (fmt pat : Option String) (mnl mxl : Option Nat) (mnm mxm : Option Int)
    (mni mxi : Option Nat) (it : Option Schema) (props : Option (List (String × Schema)))
    (req : Option (List String)) (ap : Option (Bool ⊕ Schema)) (d : Option String) :
    convertType table deps (some (Schema.mk none none none none (some "string") (some es)
        fmt pat mnl mxl mnm mxm mni mxi it props req ap d)) path owner inline =
      (some ("z.enum([" ++ joinSep ", " (es.map (fun e => "\"" ++ e ++ "\"")) ++ "])"), deps) ∧
    convertType table deps (some (Schema.mk none none none none (some "string") (some es)
        fmt pat mnl mxl mnm mxm mni mxi it props req ap d)) path owner inline =
      convertType table deps (some (Schema.mk none none none none (some "string") (some es)
        none none none none mnm mxm mni mxi it props req ap d)) path owner inline := by
  constructor
  · simp [convertType, effRef, Schema.ref, Schema.allOf, Schema.oneOf, Schema.anyOf, Schema.type,
      Schema.enum, convertString]
  · simp [convertType, effRef, Schema.ref, Schema.allOf, Schema.oneOf, Schema.anyOf, Schema.type,
      Schema.enum, convertString]

/-- Claim C8: converting a one-of composition over a list of children is
identical (same expression and same dependency-map effect) to converting an
any-of composition over the same list, in every conversion context: both
emit `z.union([...])` over the same converted children. -/
theorem convertType_oneOf_anyOf_same (table : List (String × Schema)) (deps : DepMap)
    (l : List Schema) (path : List String) (owner : String) (inline : Bool)
    (ty : Option String) (en : Option (List String)) (fmt pat : Option String)
    (mnl mxl : Option Nat) (mnm mxm : Option Int) (mni mxi : Option Nat)
    (it : Option Schema) (props : Option (List (String × Schema)))
    (req : Option (List String)) (ap : Option (Bool ⊕ Schema)) (d : Option String) :
    convertType table deps (some (Schema.mk none none (some l) none ty en fmt pat mnl mxl
        mnm mxm mni mxi it props req ap d)) path owner inline =
      convertType table deps (some (Schema.mk none none none (some l) ty en fmt pat mnl mxl
        mnm mxm mni mxi it props req ap d)) path owner inline := by
  simp [convertType, effRef, Schema.ref, Schema.allOf, Schema.oneOf, Schema.anyOf]

/-- Claim C9: when generation of a named component is requested while that
name is already in the currently-expanding set (and not memoized), the
emitter logs the circular-reference diagnostic and returns no artifact,
leaving its state unchanged; the surrounding loop then continues so that
the remaining names produce exactly the artifacts they would produce had
the cyclic request not been present. -/
theorem componentCycle_skip (s : CGState) (name : String) (rest : List String)
    (hmemo : lookupAssoc s.generated name = none)
    (hproc : name ∈ s.processing) :
    generateSchemaFile s name = (s, none, ["Detected circular reference for schema: " ++ name]) ∧
    genComponentsAux s (name :: rest) =
      ((genComponentsAux s rest).1, (genComponentsAux s rest).2.1,
        ("Detected circular reference for schema: " ++ name) :: (genComponentsAux s rest).2.2) := by
  have h1 : generateSchemaFile s name =
      (s, none, ["Detected circular reference for schema: " ++ name]) := by
    simp [generateSchemaFile, hmemo, hproc]
  refine ⟨h1, ?_⟩
  simp [genComponentsAux, h1]

/-- Witness for C9 at a concrete state whose processing stack holds "X". -/
theorem componentCycle_skip_witness :
    generateSchemaFile ⟨[], [], [], ["X"]⟩ "X" =
      (⟨[], [], [], ["X"]⟩, none, ["Detected circular reference for schema: " ++ "X"]) ∧
    genComponentsAux ⟨[], [], [], ["X"]⟩ ["X"] =
      ((genComponentsAux ⟨[], [], [], ["X"]⟩ []).1,
        (genComponentsAux ⟨[], [], [], ["X"]⟩ []).2.1,
        ("Detected circular reference for schema: " ++ "X") ::
          (genComponentsAux ⟨[], [], [], ["X"]⟩ []).2.2) :=
  componentCycle_skip ⟨[], [], [], ["X"]⟩ "X" [] rfl (by decide)

def exC5ReqA : Schema :=
  Schema.mk none none none none (some "string") none none none none none none none none none
    none none none none none

def exC5ReqB : Schema :=
  Schema.mk none none none none (some "number") none none none none none none none none none
    none none none none none

def exC5OpA : Operation := ⟨some "op", some "first entry", some exC5ReqA, none⟩

def exC5OpB : Operation := ⟨some "op", some "second entry", some exC5ReqB, none⟩

def exC5PathsA : List (String × List (String × Option Operation)) :=
  [("/a", [("post", some exC5OpA)])]

def exC5PathsB : List (String × List (String × Option Operation)) :=
  [("/a", [("post", some exC5OpA)]), ("/b", [("post", some exC5OpB)])]

/-- Claim C5, counterexample: two path entries share operationId "op"; the
first declares request body `exC5ReqA` (a string schema) and the record
accumulated after it carries that request, but after the second entry the
merged record's request is `exC5ReqB` — the later entry replaced, rather than
augmented, the request accumulated from the earlier entry. -/
theorem opMerge_replaces_request :
    (lookupAssoc (buildOperationSchemas exC5PathsA) "op").map (fun r => r.request) =
      some (some exC5ReqA) ∧
    (lookupAssoc (buildOperationSchemas exC5PathsB) "op").map (fun r => r.request) =
      some (some exC5ReqB) ∧
    exC5ReqA.type = some "string" ∧ exC5ReqB.type = some "number" := by
  refine ⟨rfl, rfl, rfl, rfl⟩

/-- The effective response declaration chosen by the assembler for one
status code from a single path entry: the last response at that code that
carries a JSON schema, with its JS `||`-defaulted description. -/
def lastJsonResp : List (String × ResponseObj) → String → Option (String × Schema)
  | [], _ => none
  | (c, resp) :: rest, code =>
    match lastJsonResp rest code with
    | some v => some v
    | none =>
      match resp.jsonSchema with
      | some sch => if c == code then some (jsOr resp.description ("Response " ++ c), sch) else none
      | none => none

theorem lookupAssoc_all_miss {α : Type} (l : List (String × α)) (k : String)
    (h : l.any (fun e => e.1 == k) = false) : lookupAssoc l k = none := by
  induction l with
  | nil => simp [lookupAssoc]
  | cons e t ih =>
    simp only [List.any_cons, Bool.or_eq_false_iff] at h
    rw [lookupAssoc_cons, if_neg (by simp [h.1])]
    exact ih h.2

theorem setResp_lookup_self (l : List RespEntry) (code d : String) (sch : Schema) :
    lookupAssoc (setResp l code d sch) code = some (d, sch) := by
  unfold setResp
  by_cases ha : l.any (fun e => e.1 == code) = true
  · rw [if_pos ha]
    induction l with
    | nil => simp at ha
    | cons e t ih =>
      simp only [List.any_cons, Bool.or_eq_true] at ha
      by_cases he : (e.1 == code) = true
      · simp only [List.map_cons, if_pos he]
        rw [lookupAssoc_cons]
        simp
      · have he2 : (e.1 == code) = false := by simpa using he
        simp only [List.map_cons, he2, if_neg, Bool.false_eq_true, not_false_iff]
        rw [lookupAssoc_cons, if_neg (by simp [he2])]
        rcases ha with h | h
        · rw [he2] at h
          simp at h
        · exact ih h
  · have ha2 : l.any (fun e => e.1 == code) = false := (Bool.eq_false_iff).mpr ha
    rw [if_neg ha]
    rw [lookupAssoc_append, lookupAssoc_all_miss l code ha2]
    simp [lookupAssoc, List.find?_cons]

theorem lookupAssoc_setmap (l : List RespEntry) (code d : String) (sch : Schema) (c2 : String)
    (hne : (c2 == code) = false) :
    lookupAssoc (l.map (fun e => if e.1 == code then (code, d, sch) else e)) c2 =
      lookupAssoc l c2 := by
  have hc2 : c2 ≠ code := by simpa using hne
  induction l with
  | nil => simp [lookupAssoc]
  | cons e t ih =>
    by_cases he : (e.1 == code) = true
    · have he' : e.1 = code := by simpa using he
      have hcc : (code == c2) = false := by
        simp only [beq_eq_false_iff_ne, ne_eq]
        exact fun h => hc2 h.symm
      have hec : (e.1 == c2) = false := by
        rw [he']
        exact hcc
      simp only [List.map_cons, if_pos he]
      rw [lookupAssoc_cons, lookupAssoc_cons, if_neg (by simp [hcc]), if_neg (by simp [hec])]
      exact ih
    · have he2 : (e.1 == code) = false := (Bool.eq_false_iff).mpr he
      simp only [List.map_cons, he2, if_neg, Bool.false_eq_true, not_false_iff]
      rw [lookupAssoc_cons, lookupAssoc_cons]
      by_cases hec : (e.1 == c2) = true
      · rw [if_pos hec, if_pos hec]
      · rw [if_neg hec, if_neg hec]
        exact ih

theorem setResp_lookup_other (l : List RespEntry) (code d c2 : String) (sch : Schema)
    (hne : (c2 == code) = false) :
    lookupAssoc (setResp l code d sch) c2 = lookupAssoc l c2 := by
  have hc2 : c2 ≠ code := by simpa using hne
  unfold setResp
  by_cases ha : l.any (fun e => e.1 == code) = true
  · rw [if_pos ha]
    exact lookupAssoc_setmap l code d sch c2 hne
  · rw [if_neg ha]
    rw [lookupAssoc_append]
    cases h3 : lookupAssoc l c2 with
    | none =>
      rw [lookupAssoc_cons, if_neg (by simp; exact fun h => hc2 h.symm)]
      simp [lookupAssoc]
    | some v => rfl

theorem applyResponses_lookup (rs : List (String × ResponseObj)) (acc : List RespEntry)
    (code : String) :
    lookupAssoc (applyResponses acc rs) code =
      (match lastJsonResp rs code with
       | some v => some v
       | none => lookupAssoc acc code) := by
  induction rs generalizing acc with
  | nil => simp [applyResponses, lastJsonResp]
  | cons e rest ih =>
    obtain ⟨c, resp⟩ := e
    cases hjs : resp.jsonSchema with
    | none =>
      simp only [applyResponses, hjs, lastJsonResp]
      rw [ih]
      cases hlast : lastJsonResp rest code <;> simp
    | some sch =>
      simp only [applyResponses, hjs, lastJsonResp]
      rw [ih]
      cases hlast : lastJsonResp rest code with
      | some v => simp
      | none =>
        simp only
        by_cases hcc : (c == code) = true
        · have hc' : c = code := by simpa using hcc
          subst hc'
          simp [setResp_lookup_self]
        · have hcc2 : (c == code) = false := (Bool.eq_false_iff).mpr hcc
          have hrev : (code == c) = false := by
            simp only [beq_eq_false_iff_ne, ne_eq] at hcc2 ⊢
            exact fun h => hcc2 h.symm
          rw [if_neg (by simp [hcc2])]
          exact setResp_lookup_other acc c _ code sch hrev

/-- Claim C5 amended: when several path-table entries share an operationId,
the assembler merges them so that a later entry overwrites the accumulated
request body whenever it declares one (keeping the earlier one only when it
declares none), overwrites responses at status codes it re-declares, and adds
responses at new status codes; the identifying fields (operationId, summary,
method, path) of the accumulated record are never changed by a later entry. -/
theorem applyOperation_merge_spec (r : OperationSchema) (op : Operation) :
    (applyOperation r op).operationId = r.operationId ∧
    (applyOperation r op).summary = r.summary ∧
    (applyOperation r op).method = r.method ∧
    (applyOperation r op).path = r.path ∧
    (applyOperation r op).request =
      (match op.requestJsonSchema with
       | some s => some s
       | none => r.request) ∧
    ∀ code, lookupAssoc (applyOperation r op).responses code =
      (match lastJsonResp ((op.responses).getD []) code with
       | some v => some v
       | none => lookupAssoc r.responses code) := by
  unfold applyOperation
  cases hreq : op.requestJsonSchema <;> cases hresp : op.responses <;>
    simp [applyResponses_lookup, lastJsonResp]

def minTok {α : Type} [ToString α] (o : Option α) : String :=
  match o with
  | some n => ".min(" ++ toString n ++ ")"
  | none => ""

def maxTok {α : Type} [ToString α] (o : Option α) : String :=
  match o with
  | some n => ".max(" ++ toString n ++ ")"
  | none => ""

def patTok (o : Option String) : String :=
  match o with
  | some pat => if pat = "" then "" else ".regex(/" ++ pat ++ "/)"
  | none => ""

def fmtTok (o : Option String) : String :=
  if o = some "date-time" then ".datetime()"
  else if o = some "date" then ".date()"
  else if o = some "email" then ".email()"
  else if o = some "uuid" then ".uuid()"
  else if o = some "uri" ∨ o = some "url" then ".url()"
  else ""

def exC7Items : Schema :=
  Schema.mk none none none none (some "string") none none none (some 1) none none none none none
    none none none none none

def exC7Arr : Schema :=
  Schema.mk none none none none (some "array") none none none none none none none none none
    (some exC7Items) none none none none

/-- Claim C7, counterexample: the array node `exC7Arr` declares no `minItems`,
yet its emitted expression `z.array(z.string().min(1))` contains the `.min(`
constraint token (contributed by the item schema's `minLength`), so
"constraint absent from the input implies its token absent from the emitted
expression" fails at this input. -/
theorem constraint_token_absence_fails :
    exC7Arr.minItems = none ∧
    (convertType [] [] (some exC7Arr) [] "" false).1 = some "z.array(z.string().min(1))" ∧
    hasSub "z.array(z.string().min(1))" ".min(" = true := by
  refine ⟨rfl, ?_, by decide⟩
  simp [convertType, convertArray, convertString, effRef, exC7Arr, exC7Items, Schema.ref,
    Schema.allOf, Schema.oneOf, Schema.anyOf, Schema.type, Schema.enum, Schema.format,
    Schema.pattern, Schema.minLength, Schema.maxLength, Schema.minItems, Schema.maxItems,
    Schema.items, tmpl]
  decide

/-- Claim C7 amended: for primitive and array nodes with no enum the emitted
expression decomposes as the base validator followed by exactly the declared
constraint suffixes in source order, so a declared constraint always
contributes its token to the output (presence direction), and an absent
constraint contributes the empty suffix; tokens may however still occur
inside nested parts of the expression (an array's item validator, a regex
pattern text), which is what the original absence direction misses. -/
theorem constraint_roundtrip_amended :
    (∀ p : Schema, p.enum = none →
      convertString p = "z.string()" ++ fmtTok p.format ++ patTok p.pattern ++
        minTok p.minLength ++ maxTok p.maxLength ∧
      (∀ n, p.minLength = some n → hasSub (convertString p) ".min(" = true) ∧
      (∀ n, p.maxLength = some n → hasSub (convertString p) ".max(" = true) ∧
      (∀ pat, p.pattern = some pat → pat ≠ "" → hasSub (convertString p) ".regex(" = true)) ∧
    (∀ (p : Schema) (ty : String),
      convertNumber p ty = (if ty = "integer" then "z.number().int()" else "z.number()") ++
        minTok p.minimum ++ maxTok p.maximum ∧
      (∀ n, p.minimum = some n → hasSub (convertNumber p ty) ".min(" = true) ∧
      (∀ n, p.maximum = some n → hasSub (convertNumber p ty) ".max(" = true)) ∧
    (∀ (table : List (String × Schema)) (deps : DepMap) (p : Schema) (path : List String)
        (owner : String) (inline : Bool),
      (convertArray table deps p path owner inline).1 =
        some ("z.array(" ++ tmpl (convertType table deps p.items path owner inline).1 ++ ")" ++
          minTok p.minItems ++ maxTok p.maxItems) ∧
      (∀ n, p.minItems = some n →
        hasSub (tmpl (convertArray table deps p path owner inline).1) ".min(" = true) ∧
      (∀ n, p.maxItems = some n →
        hasSub (tmpl (convertArray table deps p path owner inline).1) ".max(" = true)) := by
  refine ⟨?_, ?_, ?_⟩
  · intro p henum
    have hdec : convertString p = "z.string()" ++ fmtTok p.format ++ patTok p.pattern ++
        minTok p.minLength ++ maxTok p.maxLength := by
      simp only [convertString, henum, fmtTok, patTok, minTok, maxTok]
      cases hpt : p.pattern <;> cases hmn : p.minLength <;> cases hmx : p.maxLength <;> simp
    refine ⟨hdec, ?_, ?_, ?_⟩
    · intro n hn
      rw [hdec, hn]
      rw [show "z.string()" ++ fmtTok p.format ++ patTok p.pattern ++ minTok (some n) ++
          maxTok p.maxLength =
          ("z.string()" ++ fmtTok p.format ++ patTok p.pattern) ++ ".min(" ++
            (toString n ++ ")" ++ maxTok p.maxLength) from by
        simp [minTok, String.append_assoc]]
      exact hasSub_middle _ _ _
    · intro n hn
      rw [hdec, hn]
      rw [show "z.string()" ++ fmtTok p.format ++ patTok p.pattern ++ minTok p.minLength ++
          maxTok (some n) =
          ("z.string()" ++ fmtTok p.format ++ patTok p.pattern ++ minTok p.minLength) ++
            ".max(" ++ (toString n ++ ")") from by
        simp [maxTok, String.append_assoc]]
      exact hasSub_middle _ _ _
    · intro pat hpat hne
      rw [hdec, hpat]
      rw [show "z.string()" ++ fmtTok p.format ++ patTok (some pat) ++ minTok p.minLength ++
          maxTok p.maxLength =
          ("z.string()" ++ fmtTok p.format) ++ ".regex(" ++
            ("/" ++ pat ++ "/)" ++ minTok p.minLength ++ maxTok p.maxLength) from by
        simp only [patTok, if_neg hne]
        rw [show (".regex(/" : String) = ".regex(" ++ "/" from rfl]
        simp only [String.append_assoc]]
      exact hasSub_middle _ _ _
  · intro p ty
    have hdec : convertNumber p ty = (if ty = "integer" then "z.number().int()" else "z.number()") ++
        minTok p.minimum ++ maxTok p.maximum := by
      simp only [convertNumber, minTok, maxTok]
      cases hmn : p.minimum <;> cases hmx : p.maximum <;> simp
    refine ⟨hdec, ?_, ?_⟩
    · intro n hn
      rw [hdec, hn]
      rw [show (if ty = "integer" then "z.number().int()" else "z.number()") ++ minTok (some n) ++
          maxTok p.maximum =
          (if ty = "integer" then "z.number().int()" else "z.number()") ++ ".min(" ++
            (toString n ++ ")" ++ maxTok p.maximum) from by
        simp [minTok, String.append_assoc]]
      exact hasSub_middle _ _ _
    · intro n hn
      rw [hdec, hn]
      rw [show (if ty = "integer" then "z.number().int()" else "z.number()") ++ minTok p.minimum ++
          maxTok (some n) =
          ((if ty = "integer" then "z.number().int()" else "z.number()") ++ minTok p.minimum) ++
            ".max(" ++ (toString n ++ ")") from by
        simp [maxTok, String.append_assoc]]
      exact hasSub_middle _ _ _
  · intro table deps p path owner inline
    have hdec : (convertArray table deps p path owner inline).1 =
        some ("z.array(" ++ tmpl (convertType table deps p.items path owner inline).1 ++ ")" ++
          minTok p.minItems ++ maxTok p.maxItems) := by
      simp only [convertArray, minTok, maxTok]
      cases hmn : p.minItems <;> cases hmx : p.maxItems <;> simp
    refine ⟨hdec, ?_, ?_⟩
    · intro n hn
      rw [hdec, hn]
      rw [show "z.array(" ++ tmpl (convertType table deps p.items path owner inline).1 ++ ")" ++
          minTok (some n) ++ maxTok p.maxItems =
          ("z.array(" ++ tmpl (convertType table deps p.items path owner inline).1 ++ ")") ++
            ".min(" ++ (toString n ++ ")" ++ maxTok p.maxItems) from by
        simp only [minTok]
        simp only [String.append_assoc]]
      exact hasSub_middle _ _ _
    · intro n hn
      rw [hdec, hn]
      rw [show "z.array(" ++ tmpl (convertType table deps p.items path owner inline).1 ++ ")" ++
          minTok p.minItems ++ maxTok (some n) =
          ("z.array(" ++ tmpl (convertType table deps p.items path owner inline).1 ++ ")" ++
            minTok p.minItems) ++ ".max(" ++ (toString n ++ ")") from by
        simp only [maxTok]
        simp only [String.append_assoc]]
      exact hasSub_middle _ _ _

/-- Witness for C7 amended at a concrete constrained input. -/
theorem constraint_roundtrip_amended_witness :
    hasSub (convertString exC7Items) ".min(" = true :=
  (constraint_roundtrip_amended.1 exC7Items rfl).2.1 1 rfl

theorem generateSchemaFile_success (s : CGState) (name : String) (schema : Schema)
    (hmemo : lookupAssoc s.generated name = none)
    (hproc : s.processing = [])
    (htab : lookupSchema s.table name = some schema) :
    ∃ f : GeneratedFile,
      generateSchemaFile s name =
        (⟨s.table, (convertType s.table s.deps (some schema) [name] name false).2,
          s.generated ++ [(name, f)], []⟩, some f, []) ∧
      f.fileName = name ++ ".ts" := by
  refine ⟨⟨none, name ++ ".ts", ?_⟩, ?_, rfl⟩
  case refine_1 =>
    exact
      joinSep "\n"
        (("import \x7b z \x7d from \x27zod\x27;" ::
          (lookupD (convertType s.table s.deps (some schema) [name] name false).2 name).filterMap
            (fun d =>
              if (lookupSchema s.table d).isSome then
                some ("import \x7b " ++ d ++ " \x7d from \x27./" ++ d ++ ".js\x27;")
              else none)) ++ [""] ++
          (["/**", " * " ++ jsOr schema.description (generateDescription name)] ++
            (if (schema.properties.getD []).length > 0 then
              " *" :: (schema.properties.getD []).map (fun kv =>
                " * @property \x7b" ++ getPropertyType kv.2 ++ "\x7d " ++ kv.1 ++
                  (if (schema.required.getD []).contains kv.1 then "" else "?") ++ " - " ++
                  jsOr kv.2.description kv.1)
            else []) ++ [" */"]) ++
          ["export const " ++ name ++ " = " ++
            tmpl (convertType s.table s.deps (some schema) [name] name false).1 ++ ";",
           "export type " ++ name ++ "Type = z.infer<typeof " ++ name ++ ">;", ""])
  case refine_2 =>
    simp [generateSchemaFile, hmemo, hproc, htab]

theorem genComponentsAux_names (names : List String) :
    ∀ s : CGState, s.processing = [] →
    (∀ n, n ∈ names → lookupAssoc s.generated n = none) →
    names.Nodup →
    (∀ n, n ∈ names → (lookupSchema s.table n).isSome) →
    ((genComponentsAux s names).2.1).map (fun f => f.fileName) =
      names.map (fun n => n ++ ".ts") := by
  induction names with
  | nil => intro s _ _ _ _; simp [genComponentsAux]
  | cons name rest ih =>
    intro s hproc hgen hnodup htab
    obtain ⟨schema, hschema⟩ : ∃ sc, lookupSchema s.table name = some sc := by
      have := htab name (List.mem_cons_self name rest)
      cases h : lookupSchema s.table name with
      | none => rw [h] at this; simp at this
      | some sc => exact ⟨sc, rfl⟩
    obtain ⟨f, hf, hfn⟩ := generateSchemaFile_success s name schema
      (hgen name (List.mem_cons_self name rest)) hproc hschema
    have hrest := ih ⟨s.table, (convertType s.table s.deps (some schema) [name] name false).2,
        s.generated ++ [(name, f)], []⟩ rfl
      (fun n hn => by
        rw [lookupAssoc_append]
        rw [hgen n (List.mem_cons_of_mem name hn)]
        rw [lookupAssoc_cons]
        have hne : name ≠ n := by
          intro hcon
          subst hcon
          exact (List.nodup_cons.mp hnodup).1 hn
        rw [if_neg (by simp [hne])]
        simp [lookupAssoc])
      (List.nodup_cons.mp hnodup).2
      (fun n hn => htab n (List.mem_cons_of_mem name hn))
    simp only [genComponentsAux, hf]
    simp [hrest, hfn]

theorem lookup_isSome_of_mem_keys {α : Type} {l : List (String × α)} {n : String}
    (hn : n ∈ l.map Prod.fst) : (lookupAssoc l n).isSome := by
  induction l with
  | nil => simp at hn
  | cons e t ih =>
    rw [lookupAssoc_cons]
    by_cases he : (e.1 == n) = true
    · rw [if_pos he]
      rfl
    · rw [if_neg he]
      rcases List.mem_cons.mp hn with h | h
      · exact absurd (by simp [h]) he
      · exact ih h

/-- Claim C2: the full generation pipeline is a pure function of the parsed
document, so two runs on the same document produce identical artifact
sequences; the artifact sequence is the component artifacts followed by the
operation artifacts, and (for a well-formed component table with distinct
names) the component artifacts appear exactly once per component name, in
the document's declaration order. -/
theorem generate_deterministic (doc : OpenAPIDocument) :
    generate doc = generate doc ∧
    generate doc =
      (generateComponentSchemas (docSchemas doc)).2.1 ++ generateOperationSchemas doc ∧
    (((docSchemas doc).map Prod.fst).Nodup →
      ((generateComponentSchemas (docSchemas doc)).2.1).map (fun f => f.fileName) =
        ((docSchemas doc).map Prod.fst).map (fun n => n ++ ".ts")) := by
  refine ⟨rfl, rfl, fun hnd => ?_⟩
  unfold generateComponentSchemas
  exact genComponentsAux_names ((docSchemas doc).map Prod.fst) _ rfl (fun n _ => rfl) hnd
    (fun n hn => lookup_isSome_of_mem_keys hn)

def exC2User : Schema :=
  Schema.mk none none none none (some "string") none none none none none none none none none
    none none none none (some "A user")

def exC2Doc : OpenAPIDocument := ⟨some ⟨some [("User", exC2User)]⟩, none⟩

/-- Witness for C2 at a concrete one-component document. -/
theorem generate_deterministic_witness :
    generate exC2Doc = generate exC2Doc ∧
    ((docSchemas exC2Doc).map Prod.fst).Nodup ∧
    ((generateComponentSchemas (docSchemas exC2Doc)).2.1).map (fun f => f.fileName) =
      ((docSchemas exC2Doc).map Prod.fst).map (fun n => n ++ ".ts") :=
  ⟨(generate_deterministic exC2Doc).1, by decide,
    (generate_deterministic exC2Doc).2.2 (by decide)⟩

def countFile (files : List GeneratedFile) (fn : String) : Nat :=
  (files.filter (fun f => f.fileName == fn)).length

theorem countFile_eq_names (files : List GeneratedFile) (fn : String) :
    countFile files fn =
      ((files.map (fun f => f.fileName)).filter (fun x => x == fn)).length := by
  unfold countFile
  induction files with
  | nil => simp
  | cons f t ih =>
    by_cases hf : (f.fileName == fn) = true
    · simp only [List.filter_cons, List.map_cons, hf]
      simp [ih]
    · have hf2 : (f.fileName == fn) = false := (Bool.eq_false_iff).mpr hf
      simp only [List.filter_cons, List.map_cons, hf2]
      simp [ih]

theorem filter_beq_length_one {l : List String} {X : String} (hnd : l.Nodup) (hX : X ∈ l) :
    (l.filter (fun n => n == X)).length = 1 := by
  induction l with
  | nil => simp at hX
  | cons k t ih =>
    rcases List.mem_cons.mp hX with h | h
    · subst h
      have hnotin : X ∉ t := (List.nodup_cons.mp hnd).1
      have hfil : t.filter (fun n => n == X) = [] := by
        rw [List.filter_eq_nil_iff]
        intro a ha
        simp only [beq_iff_eq]
        intro hcon
        subst hcon
        exact hnotin ha
      simp only [List.filter_cons]
      rw [if_pos (by simp)]
      simp [hfil]
    · have hk : k ≠ X := by
        intro hcon
        subst hcon
        exact (List.nodup_cons.mp hnd).1 h
      simp only [List.filter_cons]
      rw [if_neg (by simp [hk])]
      exact ih (List.nodup_cons.mp hnd).2 h

theorem strAppend_cancel_right {a b c : String} (h : a ++ c = b ++ c) : a = b := by
  have h2 := congrArg String.data h
  rw [strData_append, strData_append] at h2
  have h3 := List.append_cancel_right h2
  exact String.ext h3

/-- Claim C4: in every component table with distinct names that contains two
shapes A and B referencing each other, the component emitter generates
exactly one artifact named A.ts and exactly one named B.ts — no duplicates
and no missing artifact. -/
theorem mutual_refs_generate_once (table : List (String × Schema)) (A B : String)
    (sa sb : Schema)
    (hA : lookupSchema table A = some sa) (hB : lookupSchema table B = some sb)
    (hAB : A ≠ B) (hnd : (table.map Prod.fst).Nodup)
    (hrefAB : mentionsRef sa B = true) (hrefBA : mentionsRef sb A = true) :
    countFile (generateComponentSchemas table).2.1 (A ++ ".ts") = 1 ∧
    countFile (generateComponentSchemas table).2.1 (B ++ ".ts") = 1 := by
  have hnames : ((generateComponentSchemas table).2.1).map (fun f => f.fileName) =
      (table.map Prod.fst).map (fun n => n ++ ".ts") := by
    unfold generateComponentSchemas
    exact genComponentsAux_names (table.map Prod.fst) _ rfl (fun n _ => rfl) hnd
      (fun n hn => lookup_isSome_of_mem_keys hn)
  have key : ∀ X : String, X ∈ table.map Prod.fst →
      countFile (generateComponentSchemas table).2.1 (X ++ ".ts") = 1 := by
    intro X hX
    rw [countFile_eq_names, hnames]
    have hfiltereq : ((table.map Prod.fst).map (fun n => n ++ ".ts")).filter
          (fun x => x == X ++ ".ts") =
        ((table.map Prod.fst).filter (fun n => n == X)).map (fun n => n ++ ".ts") := by
      induction (table.map Prod.fst) with
      | nil => simp
      | cons k t ih =>
        by_cases hk : (k == X) = true
        · have hk' : k = X := by simpa using hk
          subst hk'
          simp only [List.map_cons, List.filter_cons]
          rw [if_pos (by simp), if_pos (by simp)]
          simp [ih]
        · have hk' : k ≠ X := by simpa using hk
          have hkts : ((k ++ ".ts") == (X ++ ".ts")) = false := by
            simp only [beq_eq_false_iff_ne, ne_eq]
            intro hcon
            exact hk' (strAppend_cancel_right hcon)
          simp only [List.map_cons, List.filter_cons]
          rw [if_neg (by simp [hkts]), if_neg (by simp [hk'])]
          exact ih
    rw [hfiltereq, List.length_map]
    exact filter_beq_length_one hnd hX
  exact ⟨key A (mem_keys_of_lookup (by rw [hA]; rfl)),
    key B (mem_keys_of_lookup (by rw [hB]; rfl))⟩

def exC4A : Schema :=
  Schema.mk (some "#/components/schemas/B") none none none none none none none none none none
    none none none none none none none none

def exC4B : Schema :=
  Schema.mk (some "#/components/schemas/A") none none none none none none none none none none
    none none none none none none none none

def exC4Table : List (String × Schema) := [("A", exC4A), ("B", exC4B)]

/-- Witness for C4 at a concrete mutually-referential two-component table. -/
theorem mutual_refs_generate_once_witness :
    countFile (generateComponentSchemas exC4Table).2.1 ("A" ++ ".ts") = 1 ∧
    countFile (generateComponentSchemas exC4Table).2.1 ("B" ++ ".ts") = 1 :=
  mutual_refs_generate_once exC4Table "A" "B" exC4A exC4B rfl rfl (by decide) (by decide)
    (by
      rw [mentionsRef.eq_def]
      simp +decide [exC4A, Schema.ref, Schema.allOf, Schema.oneOf, Schema.anyOf, Schema.items,
        Schema.properties, Schema.additionalProperties])
    (by
      rw [mentionsRef.eq_def]
      simp +decide [exC4B, Schema.ref, Schema.allOf, Schema.oneOf, Schema.anyOf, Schema.items,
        Schema.properties, Schema.additionalProperties])

theorem convertType_ref_lazy_eq (table : List (String × Schema)) (deps : DepMap) (p : Schema)
    (path : List String) (owner : String) (inline : Bool) (r : String)
    (heff : effRef p = some r) (hc : path.contains (lastSeg r) = true) :
    convertType table deps (some p) path owner inline =
      (some ("z.lazy(() => " ++ lastSeg r ++ ")"),
        if owner ≠ "" ∧ lastSeg r ≠ "" ∧ inline = false then addDep deps owner (lastSeg r)
        else deps) := by
  rw [convertType.eq_2]
  split
  next r' heq =>
    rw [heff] at heq
    injection heq with h
    subst h
    dsimp only
    rw [dif_pos hc]
  next heq =>
    rw [heff] at heq
    simp at heq

theorem convertType_ref_plain_eq (table : List (String × Schema)) (deps : DepMap) (p : Schema)
    (path : List String) (owner : String) (r : String)
    (heff : effRef p = some r) (hc : path.contains (lastSeg r) = false) :
    convertType table deps (some p) path owner false =
      (some (lastSeg r),
        if owner ≠ "" ∧ lastSeg r ≠ "" then addDep deps owner (lastSeg r) else deps) := by
  rw [convertType.eq_2]
  split
  next r' heq =>
    rw [heff] at heq
    injection heq with h
    subst h
    dsimp only
    rw [dif_neg (by simpa using hc)]
    cases hl : lookupSchema table (lastSeg r) with
    | some target => simp
    | none => simp
  next heq =>
    rw [heff] at heq
    simp at heq

theorem convertType_ref_inline_eq (table : List (String × Schema)) (deps : DepMap) (p : Schema)
    (path : List String) (owner : String) (r : String) (target : Schema)
    (heff : effRef p = some r) (hc : path.contains (lastSeg r) = false)
    (hl : lookupSchema table (lastSeg r) = some target) :
    convertType table deps (some p) path owner true =
      convertType table deps (some target) (path ++ [lastSeg r]) (lastSeg r) true := by
  rw [convertType.eq_2]
  split
  next r' heq =>
    rw [heff] at heq
    injection heq with h
    subst h
    dsimp only
    rw [dif_neg (by simpa using hc)]
    rw [hl]
    simp
  next heq =>
    rw [heff] at heq
    simp at heq

theorem convertType_ref_missing_eq (table : List (String × Schema)) (deps : DepMap) (p : Schema)
    (path : List String) (owner : String) (inline : Bool) (r : String)
    (heff : effRef p = some r) (hc : path.contains (lastSeg r) = false)
    (hl : lookupSchema table (lastSeg r) = none) :
    convertType table deps (some p) path owner inline =
      (some (lastSeg r),
        if owner ≠ "" ∧ lastSeg r ≠ "" ∧ inline = false then addDep deps owner (lastSeg r)
        else deps) := by
  rw [convertType.eq_2]
  split
  next r' heq =>
    rw [heff] at heq
    injection heq with h
    subst h
    dsimp only
    rw [dif_neg (by simpa using hc)]
    rw [hl]
  next heq =>
    rw [heff] at heq
    simp at heq

theorem convertType_allOf_eq (table : List (String × Schema)) (deps : DepMap) (p : Schema)
    (path : List String) (owner : String) (inline : Bool) (l : List Schema)
    (heff : effRef p = none) (hall : p.allOf = some l) :
    convertType table deps (some p) path owner inline =
      (match (convertTypeList table deps l path owner inline).1 with
       | [] => none
       | [x] => x
       | xs => some ("z.intersection(" ++ joinJS ", " xs ++ ")"),
       (convertTypeList table deps l path owner inline).2) := by
  rw [convertType.eq_2]
  split
  next r' heq =>
    rw [heff] at heq
    simp at heq
  next heq =>
    split
    next l' hall' =>
      rw [hall] at hall'
      injection hall' with h
      subst h
      dsimp only
    next hall' =>
      rw [hall] at hall'
      simp at hall'

theorem convertType_oneOf_eq (table : List (String × Schema)) (deps : DepMap) (p : Schema)
    (path : List String) (owner : String) (inline : Bool) (l : List Schema)
    (heff : effRef p = none) (hall : p.allOf = none) (hone : p.oneOf = some l) :
    convertType table deps (some p) path owner inline =
      (some ("z.union([" ++ joinJS ", " (convertTypeList table deps l path owner inline).1 ++ "])"),
       (convertTypeList table deps l path owner inline).2) := by
  rw [convertType.eq_2]
  split
  next r' heq => rw [heff] at heq; simp at heq
  next heq =>
    split
    next l' hall' => rw [hall] at hall'; simp at hall'
    next =>
      split
      next l' hone' =>
        rw [hone] at hone'
        injection hone' with h
        subst h
        dsimp only
      next hone' => rw [hone] at hone'; simp at hone'

theorem convertType_anyOf_eq (table : List (String × Schema)) (deps : DepMap) (p : Schema)
    (path : List String) (owner : String) (inline : Bool) (l : List Schema)
    (heff : effRef p = none) (hall : p.allOf = none) (hone : p.oneOf = none)
    (hany : p.anyOf = some l) :
    convertType table deps (some p) path owner inline =
      (some ("z.union([" ++ joinJS ", " (convertTypeList table deps l path owner inline).1 ++ "])"),
       (convertTypeList table deps l path owner inline).2) := by
  rw [convertType.eq_2]
  split
  next r' heq => rw [heff] at heq; simp at heq
  next heq =>
    split
    next l' hall' => rw [hall] at hall'; simp at hall'
    next =>
      split
      next l' hone' => rw [hone] at hone'; simp at hone'
      next =>
        split
        next l' hany' =>
          rw [hany] at hany'
          injection hany' with h
          subst h
          dsimp only
        next hany' => rw [hany] at hany'; simp at hany'

theorem convertType_type_eq (table : List (String × Schema)) (deps : DepMap) (p : Schema)
    (path : List String) (owner : String) (inline : Bool)
    (heff : effRef p = none) (hall : p.allOf = none) (hone : p.oneOf = none)
    (hany : p.anyOf = none) :
    convertType table deps (some p) path owner inline =
      (match p.type with
       | some "string" => (some (convertString p), deps)
       | some "number" => (some (convertNumber p "number"), deps)
       | some "integer" => (some (convertNumber p "integer"), deps)
       | some "boolean" => (some "z.boolean()", deps)
       | some "array" => convertArray table deps p path owner inline
       | some "object" => convertObject table deps p path owner inline
       | some "null" => (some "z.null()", deps)
       | some _ => (some "z.unknown()", deps)
       | none => (some "z.unknown()", deps)) := by
  rw [convertType.eq_2]
  split
  next r' heq => rw [heff] at heq; simp at heq
  next heq =>
    split
    next l' hall' => rw [hall] at hall'; simp at hall'
    next =>
      split
      next l' hone' => rw [hone] at hone'; simp at hone'
      next =>
        split
        next l' hany' => rw [hany] at hany'; simp at hany'
        next => rfl

theorem convertArray_spec (table : List (String × Schema)) (deps : DepMap) (p : Schema)
    (path : List String) (owner : String) (inline : Bool) :
    ((convertArray table deps p path owner inline).1).isSome = true ∧
    (convertArray table deps p path owner inline).2 =
      (convertType table deps p.items path owner inline).2 := by
  constructor
  · rw [(constraint_roundtrip_amended.2.2 table deps p path owner inline).1]
    rfl
  · simp only [convertArray]

theorem convertObject_spec (table : List (String × Schema)) (deps : DepMap) (p : Schema)
    (path : List String) (owner : String) (inline : Bool) :
    ((convertObject table deps p path owner inline).1).isSome = true ∧
    (convertObject table deps p path owner inline).2 =
      (match p.properties with
       | none => deps
       | some props =>
         match p.additionalProperties with
         | some (Sum.inr sch) =>
           (convertType table
             (convertTypeList table deps (props.map Prod.snd) path owner inline).2
             (some sch) path owner inline).2
         | some (Sum.inl _) =>
           (convertTypeList table deps (props.map Prod.snd) path owner inline).2
         | none => (convertTypeList table deps (props.map Prod.snd) path owner inline).2) := by
  rw [convertObject.eq_def]
  split
  next hp =>
    simp [hp]
  next props hp =>
    simp only [hp]
    split
    next b hap =>
      cases b <;> simp [hap]
    next sch hap =>
      simp [hap]
    next hap =>
      simp [hap]

/-- The dependency map only ever grows during conversion: every recorded
entry of the incoming map is still present in the outgoing map. -/
def DepsGrow (d1 d2 : DepMap) : Prop :=
  ∀ o r', r' ∈ lookupD d1 o → r' ∈ lookupD d2 o

theorem depsGrow_refl (d : DepMap) : DepsGrow d d := fun _ _ h => h

theorem depsGrow_trans {a b c : DepMap} (f : DepsGrow a b) (g : DepsGrow b c) :
    DepsGrow a c := fun o r h => g o r (f o r h)

theorem depsGrow_addDep (d : DepMap) (o2 rn : String) : DepsGrow d (addDep d o2 rn) :=
  fun _ r h => addDep_mono o2 rn h

theorem depsGrow_ite (d : DepMap) (c : Prop) [Decidable c] (o2 rn : String) :
    DepsGrow d (if c then addDep d o2 rn else d) := by
  by_cases hc : c
  · rw [if_pos hc]
    exact depsGrow_addDep d o2 rn
  · rw [if_neg hc]
    exact depsGrow_refl d

theorem convertType_depsGrow (table : List (String × Schema)) (deps : DepMap)
    (property : Option Schema) (path : List String) (owner : String) (inline : Bool) :
    DepsGrow deps (convertType table deps property path owner inline).2 := by
  refine convertType.induct table
    (fun deps property currentPath schemaName isInline =>
      DepsGrow deps (convertType table deps property currentPath schemaName isInline).2)
    (fun deps p currentPath schemaName isInline =>
      DepsGrow deps (convertObject table deps p currentPath schemaName isInline).2)
    (fun deps l currentPath schemaName isInline =>
      DepsGrow deps (convertTypeList table deps l currentPath schemaName isInline).2)
    (fun deps p currentPath schemaName isInline =>
      DepsGrow deps (convertArray table deps p currentPath schemaName isInline).2)
    ?_ ?_ ?_ ?_ ?_ ?_ ?_ ?_ ?_ ?_ ?_ ?_ ?_ ?_ ?_ ?_ ?_ ?_ ?_ ?_ ?_ ?_ ?_ ?_ ?_
    deps property path owner inline
  · intro deps path owner inline
    rw [convertType.eq_1]
    exact depsGrow_refl deps
  · intro deps path owner inline p r heff refName hc
    rw [convertType_ref_lazy_eq table deps p path owner inline r heff hc]
    exact depsGrow_ite deps _ owner (lastSeg r)
  · intro deps path owner p r heff refName hc target hl hdec
    simp only [ne_eq, Bool.true_eq_false, and_false, dite_false]
    intro IH
    rw [convertType_ref_inline_eq table deps p path owner r target heff
      ((Bool.eq_false_iff).mpr hc) hl]
    exact IH
  · intro deps path owner inline p r heff refName hc target hl hnin
    have hin : inline = false := by
      cases inline
      · rfl
      · exact absurd rfl hnin
    subst hin
    rw [convertType_ref_plain_eq table deps p path owner r heff ((Bool.eq_false_iff).mpr hc)]
    exact depsGrow_ite deps _ owner (lastSeg r)
  · intro deps path owner inline p r heff refName hc hl
    rw [convertType_ref_missing_eq table deps p path owner inline r heff
      ((Bool.eq_false_iff).mpr hc) hl]
    exact depsGrow_ite deps _ owner (lastSeg r)
  · intro deps path owner inline p heff l hall hdec IH
    rw [convertType_allOf_eq table deps p path owner inline l heff hall]
    exact IH
  · intro deps path owner inline p heff hall l hone hdec IH
    rw [convertType_oneOf_eq table deps p path owner inline l heff hall hone]
    exact IH
  · intro deps path owner inline p heff hall hone l hany hdec IH
    rw [convertType_anyOf_eq table deps p path owner inline l heff hall hone hany]
    exact IH
  · intro deps path owner inline p heff hall hone hany hty
    rw [convertType_type_eq table deps p path owner inline heff hall hone hany, hty]
    exact depsGrow_refl deps
  · intro deps path owner inline p heff hall hone hany hty
    rw [convertType_type_eq table deps p path owner inline heff hall hone hany, hty]
    exact depsGrow_refl deps
  · intro deps path owner inline p heff hall hone hany hty
    rw [convertType_type_eq table deps p path owner inline heff hall hone hany, hty]
    exact depsGrow_refl deps
  · intro deps path owner inline p heff hall hone hany hty
    rw [convertType_type_eq table deps p path owner inline heff hall hone hany, hty]
    exact depsGrow_refl deps
  · intro deps path owner inline p heff hall hone hany hty IH
    rw [convertType_type_eq table deps p path owner inline heff hall hone hany, hty]
    exact IH
  · intro deps path owner inline p heff hall hone hany hty IH
    rw [convertType_type_eq table deps p path owner inline heff hall hone hany, hty]
    exact IH
  · intro deps path owner inline p heff hall hone hany hty
    rw [convertType_type_eq table deps p path owner inline heff hall hone hany, hty]
    exact depsGrow_refl deps
  · intro deps path owner inline p heff hall hone hany val hne1 hne2 hne3 hne4 hne5 hne6 hne7 hty
    rw [convertType_type_eq table deps p path owner inline heff hall hone hany, hty]
    simp only [hne1, hne2, hne3, hne4, hne5, hne6, hne7]
    exact depsGrow_refl deps
  · intro deps path owner inline p heff hall hone hany hty
    rw [convertType_type_eq table deps p path owner inline heff hall hone hany, hty]
    exact depsGrow_refl deps
  · intro deps p path owner inline hp
    rw [(convertObject_spec table deps p path owner inline).2, hp]
    exact depsGrow_refl deps
  · intro deps p path owner inline props hp hdec hap IH
    rw [(convertObject_spec table deps p path owner inline).2, hp, hap]
    exact IH
  · intro deps p path owner inline props hp hdec b hap hb IH
    rw [(convertObject_spec table deps p path owner inline).2, hp, hap]
    exact IH
  · intro deps p path owner inline props hp hdec rd sch hap hdec2 IH1 IH2
    rw [(convertObject_spec table deps p path owner inline).2, hp, hap]
    exact depsGrow_trans IH1 IH2
  · intro deps p path owner inline props hp hdec hap IH
    rw [(convertObject_spec table deps p path owner inline).2, hp, hap]
    exact IH
  · intro deps path owner inline
    rw [convertTypeList.eq_1]
    exact depsGrow_refl deps
  · intro deps path owner inline s rest hpos r1 IH1 IH2
    rw [convertTypeList.eq_2]
    exact depsGrow_trans IH1 IH2
  · intro deps p path owner inline hdec IH
    rw [(convertArray_spec table deps p path owner inline).2]
    exact IH

theorem convertTypeList_depsGrow (table : List (String × Schema)) (deps : DepMap)
    (l : List Schema) (path : List String) (owner : String) (inline : Bool) :
    DepsGrow deps (convertTypeList table deps l path owner inline).2 := by
  refine convertTypeList.induct table
    (fun deps property currentPath schemaName isInline =>
      DepsGrow deps (convertType table deps property currentPath schemaName isInline).2)
    (fun deps p currentPath schemaName isInline =>
      DepsGrow deps (convertObject table deps p currentPath schemaName isInline).2)
    (fun deps l currentPath schemaName isInline =>
      DepsGrow deps (convertTypeList table deps l currentPath schemaName isInline).2)
    (fun deps p currentPath schemaName isInline =>
      DepsGrow deps (convertArray table deps p currentPath schemaName isInline).2)
    ?_ ?_ ?_ ?_ ?_ ?_ ?_ ?_ ?_ ?_ ?_ ?_ ?_ ?_ ?_ ?_ ?_ ?_ ?_ ?_ ?_ ?_ ?_ ?_ ?_
    deps l path owner inline
  · intro deps path owner inline
    rw [convertType.eq_1]
    exact depsGrow_refl deps
  · intro deps path owner inline p r heff refName hc
    rw [convertType_ref_lazy_eq table deps p path owner inline r heff hc]
    exact depsGrow_ite deps _ owner (lastSeg r)
  · intro deps path owner p r heff refName hc target hl hdec
    simp only [ne_eq, Bool.true_eq_false, and_false, dite_false]
    intro IH
    rw [convertType_ref_inline_eq table deps p path owner r target heff
      ((Bool.eq_false_iff).mpr hc) hl]
    exact IH
  · intro deps path owner inline p r heff refName hc target hl hnin
    have hin : inline = false := by
      cases inline
      · rfl
      · exact absurd rfl hnin
    subst hin
    rw [convertType_ref_plain_eq table deps p path owner r heff ((Bool.eq_false_iff).mpr hc)]
    exact depsGrow_ite deps _ owner (lastSeg r)
  · intro deps path owner inline p r heff refName hc hl
    rw [convertType_ref_missing_eq table deps p path owner inline r heff
      ((Bool.eq_false_iff).mpr hc) hl]
    exact depsGrow_ite deps _ owner (lastSeg r)
  · intro deps path owner inline p heff l hall hdec IH
    rw [convertType_allOf_eq table deps p path owner inline l heff hall]
    exact IH
  · intro deps path owner inline p heff hall l hone hdec IH
    rw [convertType_oneOf_eq table deps p path owner inline l heff hall hone]
    exact IH
  · intro deps path owner inline p heff hall hone l hany hdec IH
    rw [convertType_anyOf_eq table deps p path owner inline l heff hall hone hany]
    exact IH
  · intro deps path owner inline p heff hall hone hany hty
    rw [convertType_type_eq table deps p path owner inline heff hall hone hany, hty]
    exact depsGrow_refl deps
  · intro deps path owner inline p heff hall hone hany hty
    rw [convertType_type_eq table deps p path owner inline heff hall hone hany, hty]
    exact depsGrow_refl deps
  · intro deps path owner inline p heff hall hone hany hty
    rw [convertType_type_eq table deps p path owner inline heff hall hone hany, hty]
    exact depsGrow_refl deps
  · intro deps path owner inline p heff hall hone hany hty
    rw [convertType_type_eq table deps p path owner inline heff hall hone hany, hty]
    exact depsGrow_refl deps
  · intro deps path owner inline p heff hall hone hany hty IH
    rw [convertType_type_eq table deps p path owner inline heff hall hone hany, hty]
    exact IH
  · intro deps path owner inline p heff hall hone hany hty IH
    rw [convertType_type_eq table deps p path owner inline heff hall hone hany, hty]
    exact IH
  · intro deps path owner inline p heff hall hone hany hty
    rw [convertType_type_eq table deps p path owner inline heff hall hone hany, hty]
    exact depsGrow_refl deps
  · intro deps path owner inline p heff hall hone hany val hne1 hne2 hne3 hne4 hne5 hne6 hne7 hty
    rw [convertType_type_eq table deps p path owner inline heff hall hone hany, hty]
    simp only [hne1, hne2, hne3, hne4, hne5, hne6, hne7]
    exact depsGrow_refl deps
  · intro deps path owner inline p heff hall hone hany hty
    rw [convertType_type_eq table deps p path owner inline heff hall hone hany, hty]
    exact depsGrow_refl deps
  · intro deps p path owner inline hp
    rw [(convertObject_spec table deps p path owner inline).2, hp]
    exact depsGrow_refl deps
  · intro deps p path owner inline props hp hdec hap IH
    rw [(convertObject_spec table deps p path owner inline).2, hp, hap]
    exact IH
  · intro deps p path owner inline props hp hdec b hap hb IH
    rw [(convertObject_spec table deps p path owner inline).2, hp, hap]
    exact IH
  · intro deps p path owner inline props hp hdec rd sch hap hdec2 IH1 IH2
    rw [(convertObject_spec table deps p path owner inline).2, hp, hap]
    exact depsGrow_trans IH1 IH2
  · intro deps p path owner inline props hp hdec hap IH
    rw [(convertObject_spec table deps p path owner inline).2, hp, hap]
    exact IH
  · intro deps path owner inline
    rw [convertTypeList.eq_1]
    exact depsGrow_refl deps
  · intro deps path owner inline s rest hpos r1 IH1 IH2
    rw [convertTypeList.eq_2]
    exact depsGrow_trans IH1 IH2
  · intro deps p path owner inline hdec IH
    rw [(convertArray_spec table deps p path owner inline).2]
    exact IH

theorem convertType_ref_records (table : List (String × Schema)) (deps : DepMap) (p : Schema)
    (path : List String) (owner : String) (r : String)
    (heff : effRef p = some r) (howner : owner ≠ "") (hrn : lastSeg r ≠ "") :
    lastSeg r ∈ lookupD (convertType table deps (some p) path owner false).2 owner := by
  by_cases hc : path.contains (lastSeg r) = true
  · rw [convertType_ref_lazy_eq table deps p path owner false r heff hc]
    dsimp only
    rw [if_pos ⟨howner, hrn, rfl⟩]
    exact addDep_self deps owner (lastSeg r)
  · have hc2 : path.contains (lastSeg r) = false := (Bool.eq_false_iff).mpr hc
    rw [convertType_ref_plain_eq table deps p path owner r heff hc2]
    dsimp only
    rw [if_pos ⟨howner, hrn⟩]
    exact addDep_self deps owner (lastSeg r)

theorem generateSchemaFile_self_import (s : CGState) (name : String) (schema : Schema)
    (hmemo : lookupAssoc s.generated name = none)
    (hproc : s.processing = [])
    (htab : lookupSchema s.table name = some schema)
    (hA : name ∈ lookupD (convertType s.table s.deps (some schema) [name] name false).2 name) :
    ∃ f, (generateSchemaFile s name).2.1 = some f ∧
      hasSub f.content
        ("import \x7b " ++ name ++ " \x7d from \x27./" ++ name ++ ".js\x27;") = true := by
  simp only [generateSchemaFile, hmemo, hproc, htab]
  simp only [List.contains_nil, Bool.false_eq_true, if_false]
  refine ⟨_, rfl, ?_⟩
  apply hasSub_of_mem_joinSep
  apply List.mem_append.mpr
  apply Or.inl
  apply List.mem_append.mpr
  apply Or.inl
  apply List.mem_append.mpr
  apply Or.inl
  apply List.mem_cons_of_mem
  apply List.mem_filterMap.mpr
  refine ⟨name, hA, ?_⟩
  rw [if_pos (by rw [htab]; rfl)]

theorem allOfOkList_mem : ∀ l : List Schema, allOfOkList l = true → ∀ x ∈ l, allOfOk x = true := by
  intro l
  induction l with
  | nil =>
    intro _ x hx
    simp at hx
  | cons a t ih =>
    intro h x hx
    rw [allOfOkList.eq_2] at h
    simp only [Bool.and_eq_true] at h
    rcases List.mem_cons.mp hx with hh | hh
    · subst hh
      exact h.1
    · exact ih h.2 x hh

theorem allOfOk_allOf {p : Schema} {l : List Schema} (h : allOfOk p = true)
    (hall : p.allOf = some l) : l ≠ [] ∧ ∀ x ∈ l, allOfOk x = true := by
  rw [allOfOk.eq_def] at h
  simp only [Bool.and_eq_true] at h
  obtain ⟨⟨⟨⟨⟨h1, _⟩, _⟩, _⟩, _⟩, _⟩ := h
  split at h1
  next l' hall' =>
    rw [hall] at hall'
    injection hall' with he
    subst he
    simp only [Bool.and_eq_true] at h1
    refine ⟨?_, allOfOkList_mem l h1.2⟩
    intro hcon
    subst hcon
    simp at h1
  next hall' =>
    rw [hall] at hall'
    simp at hall' 

theorem allOfOk_of_lookup {table : List (String × Schema)} {n : String} {t : Schema}
    (htab : ∀ e ∈ table, allOfOk e.2 = true) (hl : lookupSchema table n = some t) :
    allOfOk t = true := by
  unfold lookupSchema lookupAssoc at hl
  cases hfind : table.find? (fun e => e.1 == n) with
  | none => rw [hfind] at hl; simp at hl
  | some e =>
    rw [hfind] at hl
    have hmem := List.mem_of_find?_eq_some hfind
    injection hl with h2
    rw [← h2]
    exact htab e hmem

theorem convertType_isSome_aux (table : List (String × Schema))
    (htab : ∀ e ∈ table, allOfOk e.2 = true) (deps : DepMap)
    (property : Option Schema) (path : List String) (owner : String) (inline : Bool) :
    (∀ p', property = some p' → allOfOk p' = true) →
      ((convertType table deps property path owner inline).1).isSome = true := by
  refine convertType.induct table
    (fun deps property currentPath schemaName isInline =>
      (∀ p', property = some p' → allOfOk p' = true) →
        ((convertType table deps property currentPath schemaName isInline).1).isSome = true)
    (fun deps p currentPath schemaName isInline =>
      ((convertObject table deps p currentPath schemaName isInline).1).isSome = true)
    (fun deps l currentPath schemaName isInline =>
      (∀ x ∈ l, allOfOk x = true) →
        ((convertTypeList table deps l currentPath schemaName isInline).1.length = l.length ∧
         ∀ ro ∈ (convertTypeList table deps l currentPath schemaName isInline).1,
           ro.isSome = true))
    (fun deps p currentPath schemaName isInline =>
      ((convertArray table deps p currentPath schemaName isInline).1).isSome = true)
    ?_ ?_ ?_ ?_ ?_ ?_ ?_ ?_ ?_ ?_ ?_ ?_ ?_ ?_ ?_ ?_ ?_ ?_ ?_ ?_ ?_ ?_ ?_ ?_ ?_
    deps property path owner inline
  · intro deps path owner inline _
    rw [convertType.eq_1]
    rfl
  · intro deps path owner inline p r heff refName hc _
    rw [convertType_ref_lazy_eq table deps p path owner inline r heff hc]
    rfl
  · intro deps path owner p r heff refName hc target hl hdec
    simp only [ne_eq, Bool.true_eq_false, and_false, dite_false]
    intro IH _
    rw [convertType_ref_inline_eq table deps p path owner r target heff
      ((Bool.eq_false_iff).mpr hc) hl]
    exact IH (fun p' hp' => by
      injection hp' with he
      rw [← he]
      exact allOfOk_of_lookup htab hl)
  · intro deps path owner inline p r heff refName hc target hl hnin _
    have hin : inline = false := by
      cases inline
      · rfl
      · exact absurd rfl hnin
    subst hin
    rw [convertType_ref_plain_eq table deps p path owner r heff ((Bool.eq_false_iff).mpr hc)]
    rfl
  · intro deps path owner inline p r heff refName hc hl _
    rw [convertType_ref_missing_eq table deps p path owner inline r heff
      ((Bool.eq_false_iff).mpr hc) hl]
    rfl
  · intro deps path owner inline p heff l hall hdec IH hgood
    rw [convertType_allOf_eq table deps p path owner inline l heff hall]
    obtain ⟨hne, hkids⟩ := allOfOk_allOf (hgood p rfl) hall
    obtain ⟨hlen, hsome⟩ := IH hkids
    cases hrd : (convertTypeList table deps l path owner inline).1 with
    | nil =>
      rw [hrd] at hlen
      simp at hlen
      exact absurd (List.length_eq_zero.mp (by omega)) hne
    | cons a tail =>
      cases tail with
      | nil =>
        simp only [hrd]
        exact hsome a (by rw [hrd]; exact List.mem_cons_self a [])
      | cons b tail2 =>
        simp only [hrd]
        rfl
  · intro deps path owner inline p heff hall l hone hdec IH hgood
    rw [convertType_oneOf_eq table deps p path owner inline l heff hall hone]
    rfl
  · intro deps path owner inline p heff hall hone l hany hdec IH hgood
    rw [convertType_anyOf_eq table deps p path owner inline l heff hall hone hany]
    rfl
  · intro deps path owner inline p heff hall hone hany hty _
    rw [convertType_type_eq table deps p path owner inline heff hall hone hany, hty]
    rfl
  · intro deps path owner inline p heff hall hone hany hty _
    rw [convertType_type_eq table deps p path owner inline heff hall hone hany, hty]
    rfl
  · intro deps path owner inline p heff hall hone hany hty _
    rw [convertType_type_eq table deps p path owner inline heff hall hone hany, hty]
    rfl
  · intro deps path owner inline p heff hall hone hany hty _
    rw [convertType_type_eq table deps p path owner inline heff hall hone hany, hty]
    rfl
  · intro deps path owner inline p heff hall hone hany hty IH _
    rw [convertType_type_eq table deps p path owner inline heff hall hone hany, hty]
    exact (convertArray_spec table deps p path owner inline).1
  · intro deps path owner inline p heff hall hone hany hty IH _
    rw [convertType_type_eq table deps p path owner inline heff hall hone hany, hty]
    exact (convertObject_spec table deps p path owner inline).1
  · intro deps path owner inline p heff hall hone hany hty _
    rw [convertType_type_eq table deps p path owner inline heff hall hone hany, hty]
    rfl
  · intro deps path owner inline p heff hall hone hany val hne1 hne2 hne3 hne4 hne5 hne6 hne7 hty _
    rw [convertType_type_eq table deps p path owner inline heff hall hone hany, hty]
    simp only [hne1, hne2, hne3, hne4, hne5, hne6, hne7]
    rfl
  · intro deps path owner inline p heff hall hone hany hty _
    rw [convertType_type_eq table deps p path owner inline heff hall hone hany, hty]
    rfl
  · intro deps p path owner inline hp
    exact (convertObject_spec table deps p path owner inline).1
  · intro deps p path owner inline props hp hdec hap IH
    exact (convertObject_spec table deps p path owner inline).1
  · intro deps p path owner inline props hp hdec b hap hb IH
    exact (convertObject_spec table deps p path owner inline).1
  · intro deps p path owner inline props hp hdec rd sch hap hdec2 IH1 IH2
    exact (convertObject_spec table deps p path owner inline).1
  · intro deps p path owner inline props hp hdec hap IH
    exact (convertObject_spec table deps p path owner inline).1
  · intro deps path owner inline _
    rw [convertTypeList.eq_1]
    exact ⟨rfl, by simp⟩
  · intro deps path owner inline s rest hpos r1 IH1 IH3 hgood
    rw [convertTypeList.eq_2]
    dsimp only
    have hhead := IH1 (fun p' hp' => by
      injection hp' with he
      rw [← he]
      exact hgood s (List.mem_cons_self s rest))
    obtain ⟨hlen, hrest⟩ := IH3 (fun x hx => hgood x (List.mem_cons_of_mem s hx))
    refine ⟨by simp [hlen], ?_⟩
    intro ro hro
    rcases List.mem_cons.mp hro with hh | hh
    · subst hh
      exact hhead
    · exact hrest ro hh
  · intro deps p path owner inline hdec IH
    exact (convertArray_spec table deps p path owner inline).1

/-- Claim C3 amended: the converter is a total function (it never raises),
and for every schema node all of whose allOf composition lists — anywhere in
the node and in every component schema of the table (reachable by inlining) —
are nonempty, it returns a validator-expression string; only an empty allOf
list can make the emitted value the JS `undefined` (see the counterexample),
all other malformed input degrades to an emitted string such as
`z.unknown()`. -/
theorem convertType_total_amended (table : List (String × Schema))
    (htab : ∀ e ∈ table, allOfOk e.2 = true) (deps : DepMap) (p : Schema)
    (hp : allOfOk p = true) (path : List String) (owner : String) (inline : Bool) :
    ((convertType table deps (some p) path owner inline).1).isSome = true :=
  convertType_isSome_aux table htab deps (some p) path owner inline
    (fun p' hp' => by
      injection hp' with he
      rw [← he]
      exact hp)

def exC3Str : Schema :=
  Schema.mk none none none none (some "string") none none none none none none none none none
    none none none none none

/-- Witness for C3 amended at a concrete composition-free node. -/
theorem convertType_total_amended_witness :
    ((convertType [] [] (some exC3Str) [] "" false).1).isSome = true :=
  convertType_total_amended [] (by simp) [] exC3Str
    (by
      rw [allOfOk.eq_def]
      simp [exC3Str, Schema.allOf, Schema.oneOf, Schema.anyOf, Schema.items, Schema.properties,
        Schema.additionalProperties])
    [] "" false

/-! ### C10: self-referential components import themselves

`visitsRef s t` holds exactly when the converter's traversal of the node `s`
(in non-inline component mode) reaches a `$ref` whose last path segment is `t`:
an effective `$ref` at the node itself, or — following the converter's branch
precedence — inside an `allOf`/`oneOf`/`anyOf` child, inside `items` of an
array-typed node, or, for an object-typed node with declared properties, inside
any property value or a schema-valued `additionalProperties`, at any depth. -/

mutual

def visitsRef (s : Schema) (t : String) : Bool :=
  match effRef s with
  | some r => lastSeg r == t
  | none =>
    match h1 : s.allOf with
    | some l =>
      have hdec : sizeOf l < sizeOf s := sizeOf_allOf_lt h1
      visitsRefList l t
    | none =>
      match h2 : s.oneOf with
      | some l =>
        have hdec : sizeOf l < sizeOf s := sizeOf_oneOf_lt h2
        visitsRefList l t
      | none =>
        match h3 : s.anyOf with
        | some l =>
          have hdec : sizeOf l < sizeOf s := sizeOf_anyOf_lt h3
          visitsRefList l t
        | none =>
          if s.type = some "array" then
            match h4 : s.items with
            | some i =>
              have hdec : sizeOf i < sizeOf s := sizeOf_items_some_lt h4
              visitsRef i t
            | none => false
          else if s.type = some "object" then
            match h5 : s.properties with
            | some props =>
              have hdec : sizeOf (props.map Prod.snd) < sizeOf s :=
                Nat.lt_of_le_of_lt (sizeOf_map_snd props) (sizeOf_properties_lt h5)
              visitsRefList (props.map Prod.snd) t ||
                (match h6 : s.additionalProperties with
                 | some (Sum.inr x) =>
                   have hdec2 : sizeOf x < sizeOf s := sizeOf_addProps_lt h6
                   visitsRef x t
                 | some (Sum.inl _) => false
                 | none => false)
            | none => false
          else false
termination_by (sizeOf s, 1)

def visitsRefList (l : List Schema) (t : String) : Bool :=
  match l with
  | [] => false
  | s :: rest =>
    have hpos : 0 < sizeOf rest := sizeOf_list_pos rest
    visitsRef s t || visitsRefList rest t
termination_by (sizeOf l, 0)

end

theorem visitsRef_ref {p : Schema} {r : String} (t : String) (heff : effRef p = some r) :
    visitsRef p t = (lastSeg r == t) := by
  rw [visitsRef.eq_def]
  split
  next r' heq =>
    rw [heff] at heq
    injection heq with h
    subst h
    rfl
  next heq =>
    rw [heff] at heq
    simp at heq

theorem visitsRef_allOf {p : Schema} {l : List Schema} (t : String)
    (heff : effRef p = none) (hall : p.allOf = some l) :
    visitsRef p t = visitsRefList l t := by
  rw [visitsRef.eq_def]
  split
  next r' heq => rw [heff] at heq; simp at heq
  next =>
    split
    next l' h => rw [hall] at h; injection h with h2; subst h2; dsimp only
    next h => rw [hall] at h; simp at h

theorem visitsRef_oneOf {p : Schema} {l : List Schema} (t : String)
    (heff : effRef p = none) (hall : p.allOf = none) (hone : p.oneOf = some l) :
    visitsRef p t = visitsRefList l t := by
  rw [visitsRef.eq_def]
  split
  next r' heq => rw [heff] at heq; simp at heq
  next =>
    split
    next l' h => rw [hall] at h; simp at h
    next =>
      split
      next l' h => rw [hone] at h; injection h with h2; subst h2; dsimp only
      next h => rw [hone] at h; simp at h

theorem visitsRef_anyOf {p : Schema} {l : List Schema} (t : String)
    (heff : effRef p = none) (hall : p.allOf = none) (hone : p.oneOf = none)
    (hany : p.anyOf = some l) :
    visitsRef p t = visitsRefList l t := by
  rw [visitsRef.eq_def]
  split
  next r' heq => rw [heff] at heq; simp at heq
  next =>
    split
    next l' h => rw [hall] at h; simp at h
    next =>
      split
      next l' h => rw [hone] at h; simp at h
      next =>
        split
        next l' h => rw [hany] at h; injection h with h2; subst h2; dsimp only
        next h => rw [hany] at h; simp at h

theorem visitsRef_items {p i : Schema} (t : String)
    (heff : effRef p = none) (hall : p.allOf = none) (hone : p.oneOf = none)
    (hany : p.anyOf = none) (hty : p.type = some "array") (hi : p.items = some i) :
    visitsRef p t = visitsRef i t := by
  rw [visitsRef.eq_def]
  split
  next r' heq => rw [heff] at heq; simp at heq
  next =>
    split
    next l' h => rw [hall] at h; simp at h
    next =>
      split
      next l' h => rw [hone] at h; simp at h
      next =>
        split
        next l' h => rw [hany] at h; simp at h
        next =>
          simp only [hty]
          rw [if_pos (by simp)]
          split
          next i' h => rw [hi] at h; injection h with h2; subst h2; dsimp only
          next h => rw [hi] at h; simp at h

theorem visitsRef_items_none {p : Schema} (t : String)
    (heff : effRef p = none) (hall : p.allOf = none) (hone : p.oneOf = none)
    (hany : p.anyOf = none) (hty : p.type = some "array") (hi : p.items = none) :
    visitsRef p t = false := by
  rw [visitsRef.eq_def]
  split
  next r' heq => rw [heff] at heq; simp at heq
  next =>
    split
    next l' h => rw [hall] at h; simp at h
    next =>
      split
      next l' h => rw [hone] at h; simp at h
      next =>
        split
        next l' h => rw [hany] at h; simp at h
        next =>
          simp only [hty]
          rw [if_pos (by simp)]
          split
          next i' h => rw [hi] at h; simp at h
          next h => rfl

theorem visitsRef_obj_inr {p x : Schema} {props : List (String × Schema)} (t : String)
    (heff : effRef p = none) (hall : p.allOf = none) (hone : p.oneOf = none)
    (hany : p.anyOf = none) (hty : p.type = some "object")
    (hp : p.properties = some props)
    (hap : p.additionalProperties = some (Sum.inr x)) :
    visitsRef p t = (visitsRefList (props.map Prod.snd) t || visitsRef x t) := by
  rw [visitsRef.eq_def]
  split
  next r' heq => rw [heff] at heq; simp at heq
  next =>
    split
    next l' h => rw [hall] at h; simp at h
    next =>
      split
      next l' h => rw [hone] at h; simp at h
      next =>
        split
        next l' h => rw [hany] at h; simp at h
        next =>
          simp only [hty]
          rw [if_neg (by simp), if_pos (by simp)]
          split
          next props' h =>
            rw [hp] at h
            injection h with h2
            subst h2
            congr 1
            split
            next x' h3 =>
              rw [hap] at h3
              injection h3 with h4
              injection h4 with h5
              subst h5
              dsimp only
            next b h3 => rw [hap] at h3; simp at h3
            next h3 => rw [hap] at h3; simp at h3
          next h => rw [hp] at h; simp at h

theorem visitsRef_obj_noinr {p : Schema} {props : List (String × Schema)} (t : String)
    (heff : effRef p = none) (hall : p.allOf = none) (hone : p.oneOf = none)
    (hany : p.anyOf = none) (hty : p.type = some "object")
    (hp : p.properties = some props)
    (hap : ∀ x, p.additionalProperties ≠ some (Sum.inr x)) :
    visitsRef p t = (visitsRefList (props.map Prod.snd) t || false) := by
  rw [visitsRef.eq_def]
  split
  next r' heq => rw [heff] at heq; simp at heq
  next =>
    split
    next l' h => rw [hall] at h; simp at h
    next =>
      split
      next l' h => rw [hone] at h; simp at h
      next =>
        split
        next l' h => rw [hany] at h; simp at h
        next =>
          simp only [hty]
          rw [if_neg (by simp), if_pos (by simp)]
          split
          next props' h =>
            rw [hp] at h
            injection h with h2
            subst h2
            congr 1
            split
            next x' h3 => exact absurd h3 (hap x')
            next b h3 => rfl
            next h3 => rfl
          next h => rw [hp] at h; simp at h

theorem visitsRef_obj_noprops {p : Schema} (t : String)
    (heff : effRef p = none) (hall : p.allOf = none) (hone : p.oneOf = none)
    (hany : p.anyOf = none) (hty : p.type = some "object")
    (hp : p.properties = none) :
    visitsRef p t = false := by
  rw [visitsRef.eq_def]
  split
  next r' heq => rw [heff] at heq; simp at heq
  next =>
    split
    next l' h => rw [hall] at h; simp at h
    next =>
      split
      next l' h => rw [hone] at h; simp at h
      next =>
        split
        next l' h => rw [hany] at h; simp at h
        next =>
          simp only [hty]
          rw [if_neg (by simp), if_pos (by simp)]
          split
          next props' h => rw [hp] at h; simp at h
          next h => rfl

theorem visitsRef_other {p : Schema} (t : String)
    (heff : effRef p = none) (hall : p.allOf = none) (hone : p.oneOf = none)
    (hany : p.anyOf = none) (hne1 : p.type ≠ some "array") (hne2 : p.type ≠ some "object") :
    visitsRef p t = false := by
  rw [visitsRef.eq_def]
  split
  next r' heq => rw [heff] at heq; simp at heq
  next =>
    split
    next l' h => rw [hall] at h; simp at h
    next =>
      split
      next l' h => rw [hone] at h; simp at h
      next =>
        split
        next l' h => rw [hany] at h; simp at h
        next =>
          rw [if_neg hne1, if_neg hne2]

theorem convertType_visits_dep (table : List (String × Schema)) (deps : DepMap)
    (property : Option Schema) (path : List String) (owner : String) (inline : Bool) :
    inline = false → owner ≠ "" → ∀ t, t ≠ "" → ∀ p', property = some p' →
      visitsRef p' t = true →
      t ∈ lookupD (convertType table deps property path owner inline).2 owner := by
  refine convertType.induct table
    (fun deps property currentPath schemaName isInline =>
      isInline = false → schemaName ≠ "" → ∀ t, t ≠ "" → ∀ p', property = some p' →
        visitsRef p' t = true →
        t ∈ lookupD (convertType table deps property currentPath schemaName isInline).2 schemaName)
    (fun deps p currentPath schemaName isInline =>
      isInline = false → schemaName ≠ "" → ∀ t, t ≠ "" → ∀ props, p.properties = some props →
        (visitsRefList (props.map Prod.snd) t = true ∨
          ∃ x, p.additionalProperties = some (Sum.inr x) ∧ visitsRef x t = true) →
        t ∈ lookupD (convertObject table deps p currentPath schemaName isInline).2 schemaName)
    (fun deps l currentPath schemaName isInline =>
      isInline = false → schemaName ≠ "" → ∀ t, t ≠ "" → visitsRefList l t = true →
        t ∈ lookupD (convertTypeList table deps l currentPath schemaName isInline).2 schemaName)
    (fun deps p currentPath schemaName isInline =>
      isInline = false → schemaName ≠ "" → ∀ t, t ≠ "" → ∀ i, p.items = some i →
        visitsRef i t = true →
        t ∈ lookupD (convertArray table deps p currentPath schemaName isInline).2 schemaName)
    ?_ ?_ ?_ ?_ ?_ ?_ ?_ ?_ ?_ ?_ ?_ ?_ ?_ ?_ ?_ ?_ ?_ ?_ ?_ ?_ ?_ ?_ ?_ ?_ ?_
    deps property path owner inline
  · intro deps path owner inline _ _ t _ p' hp' _
    exact absurd hp' (by simp)
  · intro deps path owner inline p r heff refName hc hin howner t ht p' hp' hvis
    injection hp' with he
    subst he
    rw [visitsRef_ref t heff] at hvis
    have heq : lastSeg r = t := by simpa using hvis
    subst hin
    have hr := convertType_ref_records table deps p path owner r heff howner
      (by rw [heq]; exact ht)
    rw [heq] at hr
    exact hr
  · intro deps path owner p r heff refName hc target hl hdec
    simp only [ne_eq, Bool.true_eq_false, and_false, dite_false]
    intro IH hin
    simp at hin
  · intro deps path owner inline p r heff refName hc target hl hnin hin howner t ht p' hp' hvis
    subst hin
    injection hp' with he
    subst he
    rw [visitsRef_ref t heff] at hvis
    have heq : lastSeg r = t := by simpa using hvis
    have hr := convertType_ref_records table deps p path owner r heff howner
      (by rw [heq]; exact ht)
    rw [heq] at hr
    exact hr
  · intro deps path owner inline p r heff refName hc hl hin howner t ht p' hp' hvis
    subst hin
    injection hp' with he
    subst he
    rw [visitsRef_ref t heff] at hvis
    have heq : lastSeg r = t := by simpa using hvis
    have hr := convertType_ref_records table deps p path owner r heff howner
      (by rw [heq]; exact ht)
    rw [heq] at hr
    exact hr
  · intro deps path owner inline p heff l hall hdec IH hin howner t ht p' hp' hvis
    injection hp' with he
    subst he
    rw [visitsRef_allOf t heff hall] at hvis
    rw [convertType_allOf_eq table deps p path owner inline l heff hall]
    exact IH hin howner t ht hvis
  · intro deps path owner inline p heff hall l hone hdec IH hin howner t ht p' hp' hvis
    injection hp' with he
    subst he
    rw [visitsRef_oneOf t heff hall hone] at hvis
    rw [convertType_oneOf_eq table deps p path owner inline l heff hall hone]
    exact IH hin howner t ht hvis
  · intro deps path owner inline p heff hall hone l hany hdec IH hin howner t ht p' hp' hvis
    injection hp' with he
    subst he
    rw [visitsRef_anyOf t heff hall hone hany] at hvis
    rw [convertType_anyOf_eq table deps p path owner inline l heff hall hone hany]
    exact IH hin howner t ht hvis
  · intro deps path owner inline p heff hall hone hany hty hin howner t ht p' hp' hvis
    injection hp' with he
    subst he
    rw [visitsRef_other t heff hall hone hany (by simp [hty]) (by simp [hty])] at hvis
    simp at hvis
  · intro deps path owner inline p heff hall hone hany hty hin howner t ht p' hp' hvis
    injection hp' with he
    subst he
    rw [visitsRef_other t heff hall hone hany (by simp [hty]) (by simp [hty])] at hvis
    simp at hvis
  · intro deps path owner inline p heff hall hone hany hty hin howner t ht p' hp' hvis
    injection hp' with he
    subst he
    rw [visitsRef_other t heff hall hone hany (by simp [hty]) (by simp [hty])] at hvis
    simp at hvis
  · intro deps path owner inline p heff hall hone hany hty hin howner t ht p' hp' hvis
    injection hp' with he
    subst he
    rw [visitsRef_other t heff hall hone hany (by simp [hty]) (by simp [hty])] at hvis
    simp at hvis
  · intro deps path owner inline p heff hall hone hany hty IH hin howner t ht p' hp' hvis
    injection hp' with he
    subst he
    cases hi : p.items with
    | none =>
      rw [visitsRef_items_none t heff hall hone hany hty hi] at hvis
      simp at hvis
    | some i =>
      rw [visitsRef_items t heff hall hone hany hty hi] at hvis
      rw [convertType_type_eq table deps p path owner inline heff hall hone hany, hty]
      exact IH hin howner t ht i hi hvis
  · intro deps path owner inline p heff hall hone hany hty IH hin howner t ht p' hp' hvis
    injection hp' with he
    subst he
    cases hp : p.properties with
    | none =>
      rw [visitsRef_obj_noprops t heff hall hone hany hty hp] at hvis
      simp at hvis
    | some props =>
      rw [convertType_type_eq table deps p path owner inline heff hall hone hany, hty]
      refine IH hin howner t ht props hp ?_
      cases hap : p.additionalProperties with
      | none =>
        rw [visitsRef_obj_noinr t heff hall hone hany hty hp (by simp [hap])] at hvis
        rw [Bool.or_false] at hvis
        exact Or.inl hvis
      | some ab =>
        cases ab with
        | inl b =>
          rw [visitsRef_obj_noinr t heff hall hone hany hty hp (by simp [hap])] at hvis
          rw [Bool.or_false] at hvis
          exact Or.inl hvis
        | inr x =>
          rw [visitsRef_obj_inr t heff hall hone hany hty hp hap, Bool.or_eq_true] at hvis
          rcases hvis with h | h
          · exact Or.inl h
          · exact Or.inr ⟨x, rfl, h⟩
  · intro deps path owner inline p heff hall hone hany hty hin howner t ht p' hp' hvis
    injection hp' with he
    subst he
    rw [visitsRef_other t heff hall hone hany (by simp [hty]) (by simp [hty])] at hvis
    simp at hvis
  · intro deps path owner inline p heff hall hone hany val hne1 hne2 hne3 hne4 hne5 hne6 hne7
      hty hin howner t ht p' hp' hvis
    injection hp' with he
    subst he
    rw [visitsRef_other t heff hall hone hany
      (by intro hcon; rw [hty] at hcon; injection hcon with h9; exact hne5 h9)
      (by intro hcon; rw [hty] at hcon; injection hcon with h9; exact hne6 h9)] at hvis
    simp at hvis
  · intro deps path owner inline p heff hall hone hany hty hin howner t ht p' hp' hvis
    injection hp' with he
    subst he
    rw [visitsRef_other t heff hall hone hany (by simp [hty]) (by simp [hty])] at hvis
    simp at hvis
  · intro deps p path owner inline hp hin howner t ht props hp' hdisj
    rw [hp] at hp'
    exact absurd hp' (by simp)
  · intro deps p path owner inline props hp hdec hap IH hin howner t ht props' hp' hdisj
    rw [hp] at hp'
    injection hp' with he
    subst he
    rw [(convertObject_spec table deps p path owner inline).2, hp, hap]
    rcases hdisj with hL | ⟨x, hx, _⟩
    · exact IH hin howner t ht hL
    · rw [hap] at hx
      simp at hx
  · intro deps p path owner inline props hp hdec b hap hb IH hin howner t ht props' hp' hdisj
    rw [hp] at hp'
    injection hp' with he
    subst he
    rw [(convertObject_spec table deps p path owner inline).2, hp, hap]
    rcases hdisj with hL | ⟨x, hx, _⟩
    · exact IH hin howner t ht hL
    · rw [hap] at hx
      simp at hx
  · intro deps p path owner inline props hp hdec rd sch hap hdec2 IH1 IH2 hin howner t ht
      props' hp' hdisj
    rw [hp] at hp'
    injection hp' with he
    subst he
    rw [(convertObject_spec table deps p path owner inline).2, hp, hap]
    rcases hdisj with hL | ⟨x, hx, hvx⟩
    · exact convertType_depsGrow table _ (some sch) path owner inline owner t
        (IH1 hin howner t ht hL)
    · rw [hap] at hx
      injection hx with h2
      injection h2 with h3
      subst h3
      exact IH2 hin howner t ht sch rfl hvx
  · intro deps p path owner inline props hp hdec hap IH hin howner t ht props' hp' hdisj
    rw [hp] at hp'
    injection hp' with he
    subst he
    rw [(convertObject_spec table deps p path owner inline).2, hp, hap]
    rcases hdisj with hL | ⟨x, hx, _⟩
    · exact IH hin howner t ht hL
    · rw [hap] at hx
      simp at hx
  · intro deps path owner inline hin howner t ht hvis
    rw [visitsRefList.eq_1] at hvis
    simp at hvis
  · intro deps path owner inline s rest hpos r1 IH1 IH2 hin howner t ht hvis
    simp only [visitsRefList.eq_2, Bool.or_eq_true] at hvis
    rw [convertTypeList.eq_2]
    rcases hvis with hL | hR
    · exact convertTypeList_depsGrow table _ rest path owner inline owner t
        (IH1 hin howner t ht s rfl hL)
    · exact IH2 hin howner t ht hR
  · intro deps p path owner inline hdec IH hin howner t ht i hi hvis
    rw [(convertArray_spec table deps p path owner inline).2]
    exact IH hin howner t ht i hi hvis

/-- Claim C10: a named component schema that contains, at any position the
converter's traversal visits (an effective top-level reference, a child of an
`allOf`/`oneOf`/`anyOf` composition, array `items`, an object property value,
or a schema-valued `additionalProperties`, nested to any depth), a reference
whose last path segment is the component's own name, has that self-dependency
recorded in the dependency map produced by its conversion, and the generated
file for the component then contains a self-import line naming the component
itself one directory down with a `.js` extension. -/
theorem self_reference_self_import (s : CGState) (name : String) (schema : Schema)
    (hmemo : lookupAssoc s.generated name = none)
    (hproc : s.processing = [])
    (htab : lookupSchema s.table name = some schema)
    (hname : name ≠ "")
    (hvis : visitsRef schema name = true) :
    name ∈ lookupD (convertType s.table s.deps (some schema) [name] name false).2 name ∧
    ∃ f, (generateSchemaFile s name).2.1 = some f ∧
      hasSub f.content
        ("import \x7b " ++ name ++ " \x7d from \x27./" ++ name ++ ".js\x27;") = true := by
  have hA : name ∈ lookupD (convertType s.table s.deps (some schema) [name] name false).2 name :=
    convertType_visits_dep s.table s.deps (some schema) [name] name false rfl hname name hname
      schema rfl hvis
  exact ⟨hA, generateSchemaFile_self_import s name schema hmemo hproc htab hA⟩

def exC10Ref : Schema :=
  Schema.mk (some "#/components/schemas/Node") none none none none none none none none none
    none none none none none none none none none

def exC10Node : Schema :=
  Schema.mk none none none none (some "array") none none none none none none none none none
    (some exC10Ref) none none none none

def exC10State : CGState := ⟨[("Node", exC10Node)], [], [], []⟩

/-- Witness for C10 at a concrete self-referential component: an array-typed
component whose `items` refer back to the component itself. -/
theorem self_reference_self_import_witness :
    "Node" ∈ lookupD (convertType exC10State.table exC10State.deps (some exC10Node)
        ["Node"] "Node" false).2 "Node" ∧
    ∃ f, (generateSchemaFile exC10State "Node").2.1 = some f ∧
      hasSub f.content "import \x7b Node \x7d from \x27./Node.js\x27;" = true := by
  have h1 : visitsRef exC10Ref "Node" = true := by
    rw [visitsRef_ref "Node"
      (show effRef exC10Ref = some "#/components/schemas/Node" from rfl)]
    decide
  have h2 : visitsRef exC10Node "Node" = true := by
    rw [visitsRef_items "Node" (show effRef exC10Node = none from rfl) rfl rfl rfl rfl
      (show exC10Node.items = some exC10Ref from rfl)]
    exact h1
  exact self_reference_self_import exC10State "Node" exC10Node rfl rfl rfl (by decide) h2
